import Mathlib

/-!
Verification development for the ParaYield backend's two computational
engines: the portfolio backtest engine (`src/modules/backtest/backtest.service.ts`)
and the yield derivation engine (`src/modules/apy/apy-calculator.service.ts`).

Modelling conventions:
* JavaScript numbers are modelled as exact rationals (`ℚ`); `parseFloat(x.toFixed(4))`
  is modelled by `round4`.
* `"YYYY-MM-DD"` date strings are modelled as UTC day numbers (`ℕ`); lexicographic
  order on ISO date strings coincides with numeric order on day numbers.
* Millisecond timestamps (`Date.getTime()`) are modelled as `ℤ`.
* JavaScript objects used as string-keyed maps are modelled as association lists
  with JS-object write semantics (`assocSet`: overwrite in place, else append),
  which keeps keys duplicate-free in insertion order.
* `Math.pow` and `Math.sqrt` are modelled as explicit function parameters
  (`powf`, `sqrtf`) wherever the exact float value does not matter to a claim.
* Promises/`await` disappear: fetched data is passed in as an argument
  (`cache : String → List PoolHistoryRecord`), and thrown `BadRequestException`s
  become `Except.error`.
-/

namespace ParaYield

/-- Models `parseFloat(x.toFixed(4))`: round to 4 decimal places. -/
def round4 (x : ℚ) : ℚ :=
  (round (x * 10000) : ℤ) / 10000

/-- JS object property write `m[k] = v`: overwrite the value in place if the key
exists, otherwise append the new key at the end (insertion order preserved). -/
def assocSet {κ β : Type} [DecidableEq κ] : List (κ × β) → κ → β → List (κ × β)
  | [], k, v => [(k, v)]
  | (k0, v0) :: rest, k, v =>
      if k0 = k then (k0, v) :: rest else (k0, v0) :: assocSet rest k v

namespace Backtest

/-- `PoolHistoryRecord` from `pools-client.service.ts`; `dataDay` models the
`"YYYY-MM-DD"` prefix `dataTimestamp.slice(0, 10)` as a UTC day number. -/
structure PoolHistoryRecord where
  protocol : String
  network : String
  poolType : String
  assetSymbol : String
  supplyApy : ℚ
  rewardApy : Option ℚ
  totalApy : Option ℚ
  dataDay : Nat
deriving DecidableEq

/-- `BacktestAllocation` DTO field set. -/
structure BacktestAllocation where
  protocol : String
  assetSymbol : String
  percentage : ℚ
  poolType : Option String
deriving DecidableEq

/-- `RunBacktestDto` after the destructuring defaults of `runBacktest`
(`rebalanceIntervalDays = 0`, `includeIL = false`, `xcmFeeUsd = 0.5`);
`fromDay`/`toDay` are the parsed `from`/`to` dates as day numbers. -/
structure RunBacktestDto where
  initialAmountUsd : ℚ
  fromDay : Nat
  toDay : Nat
  allocations : List BacktestAllocation
  rebalanceIntervalDays : Nat
  includeIL : Bool
  xcmFeeUsd : ℚ
deriving DecidableEq

/-- Internal `AllocState` (without the unused `firstPrice`). -/
structure AllocState where
  protocol : String
  assetSymbol : String
  poolType : String
  percentage : ℚ
  valueUsd : ℚ
  apyHistory : List (Nat × ℚ)
  apySamples : List ℚ
  ilLossUsd : ℚ
deriving DecidableEq

/-- One `timeSeries` entry. -/
structure TimeSeriesPoint where
  date : Nat
  totalValueUsd : ℚ
  dailyReturnPct : ℚ
deriving DecidableEq

instance : Inhabited TimeSeriesPoint := ⟨⟨0, 0, 0⟩⟩

/-- `buildApyMap`: record → effective APY, later records for the same day win. -/
def buildApyMap (records : List PoolHistoryRecord) : List (Nat × ℚ) :=
  records.foldl
    (fun map rec =>
      let apy :=
        match rec.totalApy with
        | some t => t
        | none => rec.supplyApy + rec.rewardApy.getD 0
      assocSet map rec.dataDay apy)
    []

/-- `getApyForDay`: exact match → nearest past date → nearest future date → 0.
(The unused `allDays` parameter of the source is dropped.) -/
def getApyForDay (map : List (Nat × ℚ)) (dateStr : Nat) : ℚ :=
  match map.lookup dateStr with
  | some v => v
  | none =>
    let mapKeys := (map.map Prod.fst).mergeSort (fun a b => decide (a ≤ b))
    match mapKeys with
    | [] => 0
    | k0 :: _ =>
      let past := mapKeys.filter (fun k => decide (k ≤ dateStr))
      match past.getLast? with
      | some kp => (map.lookup kp).getD 0
      | none => (map.lookup k0).getD 0

/-- `buildDayList`: inclusive day range from `start` to `stop`. -/
def buildDayList (start stop : Nat) : List Nat :=
  List.range' start (stop + 1 - start)

/-- The growth section of the day-loop body (`for (const state of allocStates)`):
push the day's APY sample and, for day index `i > 0`, compound daily. -/
def growthStep (i dateStr : Nat) (state : AllocState) : AllocState :=
  let apy := getApyForDay state.apyHistory dateStr
  { state with
    apySamples := state.apySamples ++ [apy]
    valueUsd :=
      if 0 < i then
        let dailyRate := apy / 100 / 365
        state.valueUsd * (1 + dailyRate)
      else state.valueUsd }

/-- `countCrossChainHops`: `Math.max(0, new Set(protocols).size - 1)`
(truncated `Nat` subtraction models the clamp at 0). -/
def countCrossChainHops (states : List AllocState) : Nat :=
  ((states.map (fun s => s.protocol)).dedup).length - 1

/-- Mutable loop variables of the day loop of `runBacktest`. -/
structure LoopState where
  allocStates : List AllocState
  timeSeries : List TimeSeriesPoint
  peakValue : ℚ
  maxDrawdown : ℚ
  xcmFeesPaidUsd : ℚ
  rebalanceCount : Nat
  prevTotalValue : ℚ
deriving DecidableEq

/-- One iteration of the day loop (`for (let i = 0; i < days.length; i++)`). -/
def dayStep (dto : RunBacktestDto) (i : Nat) (s : LoopState) : LoopState :=
  let dateStr := dto.fromDay + i
  let allocs1 := s.allocStates.map (growthStep i dateStr)
  let isRebalanceDay :=
    0 < dto.rebalanceIntervalDays ∧ 0 < i ∧ i % dto.rebalanceIntervalDays = 0
  let rebal :=
    if isRebalanceDay then
      let totalBefore := (allocs1.map (fun a => a.valueUsd)).sum
      let crossChainCount := countCrossChainHops allocs1
      let feesThisRebalance := dto.xcmFeeUsd * crossChainCount
      let totalAfterFees := totalBefore - feesThisRebalance
      (allocs1.map (fun a => { a with valueUsd := totalAfterFees * (a.percentage / 100) }),
       s.xcmFeesPaidUsd + feesThisRebalance, s.rebalanceCount + 1)
    else (allocs1, s.xcmFeesPaidUsd, s.rebalanceCount)
  let allocs2 := rebal.1
  let totalValue := (allocs2.map (fun a => a.valueUsd)).sum
  let dailyReturnPct :=
    if i = 0 then 0 else (totalValue - s.prevTotalValue) / s.prevTotalValue * 100
  let peakValue := if s.peakValue < totalValue then totalValue else s.peakValue
  let drawdown := (peakValue - totalValue) / peakValue * 100
  { allocStates := allocs2
    timeSeries := s.timeSeries ++ [⟨dateStr, round4 totalValue, round4 dailyReturnPct⟩]
    peakValue := peakValue
    maxDrawdown := if s.maxDrawdown < drawdown then drawdown else s.maxDrawdown
    xcmFeesPaidUsd := rebal.2.1
    rebalanceCount := rebal.2.2
    prevTotalValue := totalValue }

/-- The loop state after processing day indices `0, …, i-1`. -/
def stateAfter (dto : RunBacktestDto) (states0 : List AllocState) : Nat → LoopState
  | 0 =>
      ⟨states0, [], dto.initialAmountUsd, 0, 0, 0, dto.initialAmountUsd⟩
  | i + 1 => dayStep dto i (stateAfter dto states0 i)

/-- `calculateIL`: two-asset constant-product impermanent loss. -/
def calculateIL (sqrtf : ℚ → ℚ) (priceRatio : ℚ) : ℚ :=
  if priceRatio ≤ 0 then 0 else 2 * sqrtf priceRatio / (1 + priceRatio) - 1

/-- `estimatePriceRatio`: implied price drift from APY-sample dispersion. -/
def estimatePriceRatio (sqrtf : ℚ → ℚ) (apySamples : List ℚ) : ℚ :=
  if apySamples.length < 2 then 1 else
  let mean := apySamples.sum / (apySamples.length : ℚ)
  let variance := (apySamples.map (fun v => (v - mean) ^ 2)).sum / (apySamples.length : ℚ)
  let stdDev := sqrtf variance
  let drift := min (3 / 10) (stdDev / 100 * (3 / 10))
  1 + drift

/-- The `includeIL` post-loop section applied to one allocation state. -/
def ilAdjust (sqrtf : ℚ → ℚ) (state : AllocState) : AllocState :=
  if state.poolType = "dex" ∨ state.poolType = "farming" then
    let estimatedPriceRatio := estimatePriceRatio sqrtf state.apySamples
    let il := calculateIL sqrtf estimatedPriceRatio
    let ilLoss := state.valueUsd * |il|
    { state with ilLossUsd := round4 ilLoss, valueUsd := state.valueUsd - ilLoss }
  else state

/-- `RISK_FREE_RATE = 0.05`. -/
def RISK_FREE_RATE : ℚ := 5 / 100

/-- `calcSharpe`: annualized Sharpe ratio of the daily-return samples. -/
def calcSharpe (sqrtf : ℚ → ℚ) (dailyReturns : List ℚ) : ℚ :=
  if dailyReturns.length < 2 then 0 else
  let rfDaily := RISK_FREE_RATE / 365
  let mean := dailyReturns.sum / (dailyReturns.length : ℚ)
  let variance :=
    (dailyReturns.map (fun r => (r - mean) ^ 2)).sum / ((dailyReturns.length : ℚ) - 1)
  let stdDev := sqrtf variance
  if stdDev = 0 then 0 else (mean - rfDaily) / stdDev * sqrtf 365

/-- `downsampleTimeSeries`: uniform stride sampling capped at `maxPoints`.
The JS reference comparison `result[result.length-1] !== series[series.length-1]`
is an index comparison, because the series elements are distinct fresh objects. -/
def downsampleTimeSeries (series : List TimeSeriesPoint) (maxPoints : Nat) :
    List TimeSeriesPoint :=
  if series.length ≤ maxPoints then series else
  let step := (series.length + maxPoints - 1) / maxPoints
  let count := (series.length + step - 1) / step
  let result := (List.range count).map (fun k => series.getD (k * step) default)
  if (count - 1) * step = series.length - 1 then result
  else result ++ [series.getD (series.length - 1) default]

/-- One entry of the per-allocation `breakdown`. -/
structure BreakdownEntry where
  protocol : String
  assetSymbol : String
  poolType : String
  allocationPercent : ℚ
  allocatedUsd : ℚ
  avgApyPercent : ℚ
  minApyPercent : ℚ
  maxApyPercent : ℚ
  ilLossUsd : ℚ
  finalUsd : ℚ
  returnUsd : ℚ
  returnPercent : ℚ
  dataPointsUsed : Nat
  hasHistoricalData : Bool
deriving DecidableEq

/-- Build one breakdown entry from a final allocation state. -/
def mkBreakdownEntry (initialAmountUsd : ℚ) (state : AllocState) : BreakdownEntry :=
  let allocatedUsd := initialAmountUsd * (state.percentage / 100)
  let returnUsd := state.valueUsd - allocatedUsd
  let returnPct := returnUsd / allocatedUsd * 100
  let avgApy :=
    if 0 < state.apySamples.length then state.apySamples.sum / (state.apySamples.length : ℚ)
    else 0
  let minApy :=
    match state.apySamples with
    | [] => 0
    | x :: xs => xs.foldl min x
  let maxApy :=
    match state.apySamples with
    | [] => 0
    | x :: xs => xs.foldl max x
  { protocol := state.protocol
    assetSymbol := state.assetSymbol
    poolType := state.poolType
    allocationPercent := state.percentage
    allocatedUsd := round4 allocatedUsd
    avgApyPercent := round4 avgApy
    minApyPercent := round4 minApy
    maxApyPercent := round4 maxApy
    ilLossUsd := state.ilLossUsd
    finalUsd := round4 state.valueUsd
    returnUsd := round4 returnUsd
    returnPercent := round4 returnPct
    dataPointsUsed := state.apySamples.length
    hasHistoricalData := decide (0 < state.apyHistory.length) }

/-- The `summary` block of the response. -/
structure BacktestSummary where
  initialAmountUsd : ℚ
  finalAmountUsd : ℚ
  totalReturnUsd : ℚ
  totalReturnPercent : ℚ
  annualizedApyPercent : ℚ
  maxDrawdownPercent : ℚ
  sharpeRatio : ℚ
  durationDays : Nat
  fromDay : Nat
  toDay : Nat
  rebalancedCount : Nat
  xcmFeesPaidUsd : ℚ
  ilIncluded : Bool
deriving DecidableEq

/-- Full `runBacktest` response. -/
structure BacktestResult where
  summary : BacktestSummary
  breakdown : List BreakdownEntry
  timeSeries : List TimeSeriesPoint
deriving DecidableEq

/-- Records of the protocol's history cache matching an allocation's asset
(`rawRecords`, the per-allocation filter of the fetched protocol history). -/
def rawRecordsFor (cache : String → List PoolHistoryRecord)
    (alloc : BacktestAllocation) : List PoolHistoryRecord :=
  (cache alloc.protocol).filter
    (fun r => r.assetSymbol.toLower = alloc.assetSymbol.toLower)

/-- The initial `allocStates` array. -/
def initAllocStates (dto : RunBacktestDto)
    (cache : String → List PoolHistoryRecord) : List AllocState :=
  dto.allocations.map (fun alloc =>
    { protocol := alloc.protocol
      assetSymbol := alloc.assetSymbol
      poolType := alloc.poolType.getD "unknown"
      percentage := alloc.percentage
      valueUsd := dto.initialAmountUsd * (alloc.percentage / 100)
      apyHistory := buildApyMap (rawRecordsFor cache alloc)
      apySamples := []
      ilLossUsd := 0 })

/-- `allocations.reduce((s, a) => s + a.percentage, 0)`. -/
def totalPercentage (dto : RunBacktestDto) : ℚ :=
  dto.allocations.foldl (fun s a => s + a.percentage) 0

/-- Number of simulated day points, `days.length`. -/
def numDays (dto : RunBacktestDto) : Nat :=
  (buildDayList dto.fromDay dto.toDay).length

/-- The post-validation body of `runBacktest`: run the day loop, apply the
optional impermanent-loss step, and assemble summary/breakdown/timeSeries. -/
def runValidated (powf : ℚ → ℚ → ℚ) (sqrtf : ℚ → ℚ) (dto : RunBacktestDto)
    (cache : String → List PoolHistoryRecord) : BacktestResult :=
  let durationDays := numDays dto - 1
  let final := stateAfter dto (initAllocStates dto cache) (numDays dto)
  let allocsIL :=
    if dto.includeIL then final.allocStates.map (ilAdjust sqrtf) else final.allocStates
  let finalTotalUsd := (allocsIL.map (fun a => a.valueUsd)).sum
  let totalReturnUsd := finalTotalUsd - dto.initialAmountUsd
  let totalReturnPct := totalReturnUsd / dto.initialAmountUsd * 100
  let annualizedApy :=
    if 0 < durationDays then
      (powf (finalTotalUsd / dto.initialAmountUsd) (365 / (durationDays : ℚ)) - 1) * 100
    else 0
  let dailyReturns := (final.timeSeries.drop 1).map (fun t => t.dailyReturnPct / 100)
  let sharpeRatio := calcSharpe sqrtf dailyReturns
  { summary :=
      { initialAmountUsd := dto.initialAmountUsd
        finalAmountUsd := round4 finalTotalUsd
        totalReturnUsd := round4 totalReturnUsd
        totalReturnPercent := round4 totalReturnPct
        annualizedApyPercent := round4 annualizedApy
        maxDrawdownPercent := round4 (-final.maxDrawdown)
        sharpeRatio := round4 sharpeRatio
        durationDays := durationDays
        fromDay := dto.fromDay
        toDay := dto.toDay
        rebalancedCount := final.rebalanceCount
        xcmFeesPaidUsd := round4 final.xcmFeesPaidUsd
        ilIncluded := dto.includeIL }
    breakdown := allocsIL.map (mkBreakdownEntry dto.initialAmountUsd)
    timeSeries := downsampleTimeSeries final.timeSeries 500 }

/-- `runBacktest`: validation, then the simulation. The nested allocation-sum
check of the source (outer asymmetric bounds, inner `|total − 100| > 0.01`)
throws exactly when both conditions hold, which is how it is rendered here. -/
def runBacktest (powf : ℚ → ℚ → ℚ) (sqrtf : ℚ → ℚ) (dto : RunBacktestDto)
    (cache : String → List PoolHistoryRecord) : Except String BacktestResult :=
  if (100 + 1 / 100 < totalPercentage dto ∨ totalPercentage dto < 100 - 1 / 100)
      ∧ 1 / 100 < |totalPercentage dto - 100| then
    .error "Allocations must sum to 100%"
  else if dto.toDay ≤ dto.fromDay then
    .error "from must be before to"
  else
    .ok (runValidated powf sqrtf dto cache)

/-- The `class-validator` constraints of the controller's `RunBacktestDto`,
enforced by the global `ValidationPipe` before the service is invoked:
`@Min(1) initialAmountUsd`, `@ArrayMinSize(1) allocations`,
`@Min(0.01) @Max(100) percentage` on each allocation, `@Min(0) xcmFeeUsd`. -/
def validateRunBacktestDto (dto : RunBacktestDto) : Bool :=
  decide (1 ≤ dto.initialAmountUsd) &&
  decide (1 ≤ dto.allocations.length) &&
  dto.allocations.all (fun a => decide (1 / 100 ≤ a.percentage) && decide (a.percentage ≤ 100)) &&
  decide (0 ≤ dto.xcmFeeUsd)

/-- The `POST /backtest/run` pipeline: DTO validation, then the service. -/
def handleRunBacktest (powf : ℚ → ℚ → ℚ) (sqrtf : ℚ → ℚ) (dto : RunBacktestDto)
    (cache : String → List PoolHistoryRecord) : Except String BacktestResult :=
  if validateRunBacktestDto dto then runBacktest powf sqrtf dto cache
  else .error "Validation failed"

end Backtest

namespace Apy

/-- `BIFROST_CONFIG.CHAIN`. -/
def CHAIN : String := "bifrost-polkadot"

/-- A `VTokenExchangeRate` row (the fields read by the APY calculator);
`timestampMs` models `timestamp.getTime()` in milliseconds. -/
structure VTokenRate where
  tokenSymbol : String
  blockNumber : Nat
  timestampMs : Int
  exchangeRateHuman : ℚ
  chain : String
deriving DecidableEq

/-- The `$set` document of an `ApySnapshot` upsert, minus the wall-clock
`createdAt` and the constant `granularity: 'hourly'`. -/
structure ApySnapshotDoc where
  asset : String
  timestampMs : Int
  blockNumber : Nat
  stakingApyPercent : ℚ
  farmingAprPercent : ℚ
  totalApyPercent : ℚ
  apy7d : ℚ
  apy30d : ℚ
  exchangeRateHuman : ℚ
  baseTokenPriceUsd : ℚ
  chain : String
deriving DecidableEq

/-- `findOne({where: {tokenSymbol}, order: {blockNumber: 'DESC'}})` over the
asset's rate rows: the row with the greatest block number. -/
def latestByBlock : List VTokenRate → Option VTokenRate
  | [] => none
  | r :: rs =>
      some (rs.foldl (fun acc x => if acc.blockNumber < x.blockNumber then x else acc) r)

/-- `findOne({where: {timestamp: {$lte: cutoff}}, order: {timestamp: 'DESC'}})`:
the row with the greatest timestamp among those at or before `cutoff`. -/
def latestAtOrBefore (rates : List VTokenRate) (cutoff : Int) : Option VTokenRate :=
  match rates.filter (fun r => decide (r.timestampMs ≤ cutoff)) with
  | [] => none
  | r :: rs =>
      some (rs.foldl (fun acc x => if acc.timestampMs < x.timestampMs then x else acc) r)

/-- The rolling-window annualization block, shared verbatim by
`computeApyForAsset` and `backfillApyHistory`:
`if (ref && ref.rate > 0 && currentRate > ref.rate) { annualize } else 0`. -/
def windowApy (powf : ℚ → ℚ → ℚ) (current : VTokenRate) : Option VTokenRate → ℚ
  | none => 0
  | some ref =>
      if 0 < ref.exchangeRateHuman ∧ ref.exchangeRateHuman < current.exchangeRateHuman then
        let daysDiff : ℚ :=
          ((current.timestampMs - ref.timestampMs : Int) : ℚ) / (1000 * 60 * 60 * 24)
        let periodReturn := current.exchangeRateHuman / ref.exchangeRateHuman - 1
        powf (1 + periodReturn) (365 / daysDiff) - 1
      else 0

/-- The aggregation after the two windows: `(apy7d || apy30d) * 100` (JS `||`
yields `apy7d` unless it is `0`), farming APR pinned to `0`, and the compounded
total, all rounded to 4 decimals for storage. -/
def mkSnapshotDoc (tokenSymbol : String) (current : VTokenRate)
    (apy7d apy30d price : ℚ) (chain : String) : ApySnapshotDoc :=
  let stakingApyPercent := (if apy7d = 0 then apy30d else apy7d) * 100
  let farmingAprPercent : ℚ := 0
  let stakingApy := stakingApyPercent / 100
  let farmingApr := farmingAprPercent / 100
  let totalApy := (1 + stakingApy) * (1 + farmingApr) - 1
  let totalApyPercent := totalApy * 100
  { asset := tokenSymbol
    timestampMs := current.timestampMs
    blockNumber := current.blockNumber
    stakingApyPercent := round4 stakingApyPercent
    farmingAprPercent := round4 farmingAprPercent
    totalApyPercent := round4 totalApyPercent
    apy7d := round4 (apy7d * 100)
    apy30d := round4 (apy30d * 100)
    exchangeRateHuman := current.exchangeRateHuman
    baseTokenPriceUsd := price
    chain := chain }

/-- `computeApyForAsset` for one asset: `rates` plays the stored
`VTokenExchangeRate` rows for `tokenSymbol`, `price` the `getTokenPrice` result.
Returns the upserted snapshot document, or `none` when no rate data exists. -/
def computeApyForAsset (powf : ℚ → ℚ → ℚ) (tokenSymbol : String)
    (rates : List VTokenRate) (price : ℚ) : Option ApySnapshotDoc :=
  match latestByBlock rates with
  | none => none
  | some latest =>
      let sevenDaysAgo := latest.timestampMs - 7 * 24 * 60 * 60 * 1000
      let rate7d := latestAtOrBefore rates sevenDaysAgo
      let thirtyDaysAgo := latest.timestampMs - 30 * 24 * 60 * 60 * 1000
      let rate30d := latestAtOrBefore rates thirtyDaysAgo
      let apy7d := windowApy powf latest rate7d
      let apy30d := windowApy powf latest rate30d
      some (mkSnapshotDoc tokenSymbol latest apy7d apy30d price CHAIN)

/-- `r.timestamp.toISOString().split('T')[0]` as a UTC day bucket. -/
def dayBucket (tsMs : Int) : Int := Int.fdiv tsMs 86400000

/-- The backfill deduplication: one record per calendar day, the last record
within each day winning (`dailyMap.set(dateStr, r)` over ascending records). -/
def dedupDaily (allRates : List VTokenRate) : List VTokenRate :=
  (allRates.foldl (fun m r => assocSet m (dayBucket r.timestampMs) r) []).map Prod.snd

/-- The body of the backfill loop for one retained record `current`: the 7d/30d
references are `allRates.filter(r => r.timestamp <= cutoff).pop()`, and a
document is produced only when `stakingApyPercent > 0`. -/
def backfillDayDoc (powf : ℚ → ℚ → ℚ) (tokenSymbol : String)
    (allRates : List VTokenRate) (price : ℚ) (current : VTokenRate) :
    Option ApySnapshotDoc :=
  let sevenDaysAgoTime := current.timestampMs - 7 * 24 * 60 * 60 * 1000
  let rate7d := (allRates.filter (fun r => decide (r.timestampMs ≤ sevenDaysAgoTime))).getLast?
  let thirtyDaysAgoTime := current.timestampMs - 30 * 24 * 60 * 60 * 1000
  let rate30d := (allRates.filter (fun r => decide (r.timestampMs ≤ thirtyDaysAgoTime))).getLast?
  let apy7d := windowApy powf current rate7d
  let apy30d := windowApy powf current rate30d
  let stakingApyPercent := (if apy7d = 0 then apy30d else apy7d) * 100
  if 0 < stakingApyPercent then
    some (mkSnapshotDoc tokenSymbol current apy7d apy30d price current.chain)
  else none

/-- `backfillApyHistory`: deduplicate to one record per day, then emit the
bulk-upsert documents of the days whose derived staking APY is positive. -/
def backfillApyHistory (powf : ℚ → ℚ → ℚ) (tokenSymbol : String)
    (allRates : List VTokenRate) (price : ℚ) : List ApySnapshotDoc :=
  (dedupDaily allRates).filterMap (backfillDayDoc powf tokenSymbol allRates price)

instance : Inhabited ApySnapshotDoc := ⟨⟨"", 0, 0, 0, 0, 0, 0, 0, 0, 0, ""⟩⟩

lemma foldl_maxTs_mem (x : VTokenRate) (l : List VTokenRate) :
    l.foldl (fun acc r => if acc.timestampMs < r.timestampMs then r else acc) x
      ∈ x :: l := by
  induction l generalizing x with
  | nil => simp
  | cons y t ih =>
    simp only [List.foldl_cons]
    by_cases hc : x.timestampMs < y.timestampMs
    · rw [if_pos hc]
      exact List.mem_cons_of_mem x (ih y)
    · rw [if_neg hc]
      rcases List.mem_cons.mp (ih x) with h1 | h1
      · rw [h1]
        exact List.mem_cons_self x _
      · exact List.mem_cons_of_mem x (List.mem_cons_of_mem y h1)

lemma foldl_maxTs_ge (x : VTokenRate) (l : List VTokenRate) :
    ∀ y ∈ x :: l, y.timestampMs
      ≤ (l.foldl (fun acc r => if acc.timestampMs < r.timestampMs then r else acc)
          x).timestampMs := by
  induction l generalizing x with
  | nil =>
    intro y hy
    rcases List.mem_cons.mp hy with rfl | h
    · exact le_rfl
    · cases h
  | cons z t ih =>
    intro y hy
    simp only [List.foldl_cons]
    have hstep : ∀ w, w = (if x.timestampMs < z.timestampMs then z else x) →
        x.timestampMs ≤ w.timestampMs ∧ z.timestampMs ≤ w.timestampMs := by
      intro w hw
      by_cases hc : x.timestampMs < z.timestampMs
      · rw [if_pos hc] at hw
        subst hw
        omega
      · rw [if_neg hc] at hw
        subst hw
        omega
    obtain ⟨hx, hz⟩ := hstep _ rfl
    rcases List.mem_cons.mp hy with rfl | hy2
    · exact le_trans hx
        (ih _ _ (List.mem_cons_self _ _))
    · rcases List.mem_cons.mp hy2 with rfl | hy3
      · exact le_trans hz
          (ih _ _ (List.mem_cons_self _ _))
      · exact ih _ y (List.mem_cons_of_mem _ hy3)

lemma latestAtOrBefore_spec {rates : List VTokenRate} {cutoff : Int} {r : VTokenRate}
    (h : latestAtOrBefore rates cutoff = some r) :
    r ∈ rates.filter (fun x => decide (x.timestampMs ≤ cutoff))
    ∧ ∀ x ∈ rates.filter (fun x => decide (x.timestampMs ≤ cutoff)),
        x.timestampMs ≤ r.timestampMs := by
  unfold latestAtOrBefore at h
  rcases hf : rates.filter (fun x => decide (x.timestampMs ≤ cutoff)) with _ | ⟨x, xs⟩
  · rw [hf] at h
    exact Option.noConfusion h
  · rw [hf] at h
    have he := Option.some.inj h
    constructor
    · rw [hf, ← he]
      exact foldl_maxTs_mem x xs
    · intro z hz
      rw [hf] at hz
      rw [← he]
      exact foldl_maxTs_ge x xs z hz

lemma latestAtOrBefore_le {rates : List VTokenRate} {cutoff : Int} {r : VTokenRate}
    (h : latestAtOrBefore rates cutoff = some r) : r.timestampMs ≤ cutoff := by
  have hmem := (latestAtOrBefore_spec h).1
  have := (List.mem_filter.mp hmem).2
  simpa using this

/-- Both annualization windows produce a non-negative figure whenever the
reference (if any) is strictly older than the current observation and the
modelled `Math.pow` sends base > 1, exponent > 0 to a value > 1. -/
lemma windowApy_nonneg (powf : ℚ → ℚ → ℚ)
    (hpow : ∀ b e : ℚ, 1 < b → 0 < e → 1 < powf b e)
    (cur : VTokenRate) (ref? : Option VTokenRate)
    (href : ∀ r, ref? = some r → r.timestampMs < cur.timestampMs) :
    0 ≤ windowApy powf cur ref? := by
  cases ref? with
  | none => simp [windowApy]
  | some ref =>
    simp only [windowApy]
    split
    · rename_i hg
      have h1 : 1 < 1 + (cur.exchangeRateHuman / ref.exchangeRateHuman - 1) := by
        have h2 : 1 < cur.exchangeRateHuman / ref.exchangeRateHuman :=
          (one_lt_div hg.1).mpr hg.2
        linarith
      have hts := href ref rfl
      have h2 : (0 : ℚ)
          < ((cur.timestampMs - ref.timestampMs : Int) : ℚ) / (1000 * 60 * 60 * 24) := by
        apply div_pos
        · exact_mod_cast (by omega : (0 : Int) < cur.timestampMs - ref.timestampMs)
        · norm_num
      have h3 : (0 : ℚ)
          < 365 / (((cur.timestampMs - ref.timestampMs : Int) : ℚ) / (1000 * 60 * 60 * 24)) :=
        div_pos (by norm_num) h2
      have h4 := hpow _ _ h1 h3
      linarith
    · exact le_rfl

/-- Claim C4: each 7d/30d window contributes the annualized figure
`(1 + current/reference − 1)^(365/actualDaysBetween) − 1` exactly when the
reference exists, its rate is positive, and the current rate strictly exceeds
it, and exactly 0 otherwise; both figures are non-negative; and the stored
`stakingApyPercent` is 100 times the 7-day figure when it is positive, else
100 times the 30-day figure when that is positive, else 0 (rounded to 4
decimals for storage), the 7-day figure taking precedence. -/
theorem stakingYield_precedence (powf : ℚ → ℚ → ℚ)
    (hpow : ∀ b e : ℚ, 1 < b → 0 < e → 1 < powf b e)
    (tokenSymbol : String) (rates : List VTokenRate) (price : ℚ)
    (latest : VTokenRate) (doc : ApySnapshotDoc)
    (hl : latestByBlock rates = some latest)
    (hd : computeApyForAsset powf tokenSymbol rates price = some doc) :
    (∀ cur : VTokenRate, windowApy powf cur none = 0)
    ∧ (∀ cur ref : VTokenRate,
        ¬(0 < ref.exchangeRateHuman
            ∧ ref.exchangeRateHuman < cur.exchangeRateHuman) →
        windowApy powf cur (some ref) = 0)
    ∧ (∀ cur ref : VTokenRate,
        0 < ref.exchangeRateHuman → ref.exchangeRateHuman < cur.exchangeRateHuman →
        windowApy powf cur (some ref)
          = powf (1 + (cur.exchangeRateHuman / ref.exchangeRateHuman - 1))
              (365 / (((cur.timestampMs - ref.timestampMs : Int) : ℚ)
                / (1000 * 60 * 60 * 24))) - 1)
    ∧ 0 ≤ windowApy powf latest
        (latestAtOrBefore rates (latest.timestampMs - 7 * 24 * 60 * 60 * 1000))
    ∧ 0 ≤ windowApy powf latest
        (latestAtOrBefore rates (latest.timestampMs - 30 * 24 * 60 * 60 * 1000))
    ∧ doc.stakingApyPercent
        = round4 ((if 0 < windowApy powf latest
              (latestAtOrBefore rates (latest.timestampMs - 7 * 24 * 60 * 60 * 1000))
            then windowApy powf latest
              (latestAtOrBefore rates (latest.timestampMs - 7 * 24 * 60 * 60 * 1000))
            else if 0 < windowApy powf latest
                (latestAtOrBefore rates (latest.timestampMs - 30 * 24 * 60 * 60 * 1000))
              then windowApy powf latest
                (latestAtOrBefore rates (latest.timestampMs - 30 * 24 * 60 * 60 * 1000))
              else 0) * 100) := by
  have h7 : 0 ≤ windowApy powf latest
      (latestAtOrBefore rates (latest.timestampMs - 7 * 24 * 60 * 60 * 1000)) :=
    windowApy_nonneg powf hpow latest _
      (fun r hr => by have := latestAtOrBefore_le hr; omega)
  have h30 : 0 ≤ windowApy powf latest
      (latestAtOrBefore rates (latest.timestampMs - 30 * 24 * 60 * 60 * 1000)) :=
    windowApy_nonneg powf hpow latest _
      (fun r hr => by have := latestAtOrBefore_le hr; omega)
  refine ⟨fun cur => rfl, ?_, ?_, h7, h30, ?_⟩
  · intro cur ref hneg
    simp only [windowApy]
    rw [if_neg hneg]
  · intro cur ref hpos hlt
    simp only [windowApy]
    rw [if_pos ⟨hpos, hlt⟩]
  · unfold computeApyForAsset at hd
    rw [hl] at hd
    have hdoc := (Option.some.inj hd).symm
    subst hdoc
    show round4 ((if windowApy powf latest
          (latestAtOrBefore rates (latest.timestampMs - 7 * 24 * 60 * 60 * 1000)) = 0
        then windowApy powf latest
          (latestAtOrBefore rates (latest.timestampMs - 30 * 24 * 60 * 60 * 1000))
        else windowApy powf latest
          (latestAtOrBefore rates (latest.timestampMs - 7 * 24 * 60 * 60 * 1000))) * 100)
      = _
    have harg : (if windowApy powf latest
          (latestAtOrBefore rates (latest.timestampMs - 7 * 24 * 60 * 60 * 1000)) = 0
        then windowApy powf latest
          (latestAtOrBefore rates (latest.timestampMs - 30 * 24 * 60 * 60 * 1000))
        else windowApy powf latest
          (latestAtOrBefore rates (latest.timestampMs - 7 * 24 * 60 * 60 * 1000)))
      = (if 0 < windowApy powf latest
            (latestAtOrBefore rates (latest.timestampMs - 7 * 24 * 60 * 60 * 1000))
          then windowApy powf latest
            (latestAtOrBefore rates (latest.timestampMs - 7 * 24 * 60 * 60 * 1000))
          else if 0 < windowApy powf latest
              (latestAtOrBefore rates (latest.timestampMs - 30 * 24 * 60 * 60 * 1000))
            then windowApy powf latest
              (latestAtOrBefore rates (latest.timestampMs - 30 * 24 * 60 * 60 * 1000))
            else 0) := by
      rcases lt_or_eq_of_le h7 with h7p | h7z
      · rw [if_neg (ne_of_gt h7p), if_pos h7p]
      · rw [if_pos h7z.symm, if_neg (by rw [← h7z]; exact lt_irrefl 0)]
        rcases lt_or_eq_of_le h30 with h30p | h30z
        · rw [if_pos h30p]
        · rw [if_neg (by rw [← h30z]; exact lt_irrefl 0), ← h30z]
    rw [harg]

lemma getLast?_mem_of_ne_nil {α : Type} (l : List α) (h : l ≠ []) :
    ∃ y, l.getLast? = some y ∧ y ∈ l := by
  induction l with
  | nil => exact absurd rfl h
  | cons a t ih =>
    cases t with
    | nil => exact ⟨a, rfl, List.mem_cons_self a []⟩
    | cons b t2 =>
      obtain ⟨y, hy, hymem⟩ := ih (by simp)
      exact ⟨y, by rw [List.getLast?_cons_cons]; exact hy, List.mem_cons_of_mem a hymem⟩

lemma mem_pairwise_lt_eq {α κ : Type} [Preorder κ] (f : α → κ) {l : List α}
    (hp : l.Pairwise (fun a b => f a < f b)) {a b : α} (ha : a ∈ l) (hb : b ∈ l)
    (hf : f a = f b) : a = b := by
  induction l with
  | nil => cases ha
  | cons x t ih =>
    rcases List.pairwise_cons.mp hp with ⟨hx, ht⟩
    rcases List.mem_cons.mp ha with h1 | ha2
    · rcases List.mem_cons.mp hb with h2 | hb2
      · rw [h1, h2]
      · rw [h1] at hf
        exact absurd hf (ne_of_lt (hx b hb2))
    · rcases List.mem_cons.mp hb with h2 | hb2
      · rw [h2] at hf
        exact absurd hf.symm (ne_of_lt (hx a ha2))
      · exact ih ht ha2 hb2

lemma pairwise_le_getLast_int {α : Type} (f : α → Int) {l : List α}
    (hs : l.Pairwise (fun a b => f a ≤ f b)) {x y : α} (hx : x ∈ l)
    (hy : l.getLast? = some y) : f x ≤ f y := by
  induction l with
  | nil => cases hx
  | cons a t ih =>
    rcases List.pairwise_cons.mp hs with ⟨ha, ht⟩
    cases t with
    | nil =>
      have hy' : y = a := by
        have h2 : (some a : Option α) = some y := by simpa using hy
        exact (Option.some.inj h2).symm
      have hx' : x = a := by simpa using hx
      rw [hx', hy']
    | cons b t2 =>
      rw [List.getLast?_cons_cons] at hy
      rcases List.mem_cons.mp hx with h1 | h2
      · have hymem : y ∈ b :: t2 := List.mem_of_mem_getLast? hy
        rw [h1]
        exact ha y hymem
      · exact ih ht h2 hy

lemma foldl_maxBlk_mem (x : VTokenRate) (l : List VTokenRate) :
    l.foldl (fun acc r => if acc.blockNumber < r.blockNumber then r else acc) x
      ∈ x :: l := by
  induction l generalizing x with
  | nil => simp
  | cons y t ih =>
    simp only [List.foldl_cons]
    by_cases hc : x.blockNumber < y.blockNumber
    · rw [if_pos hc]
      exact List.mem_cons_of_mem x (ih y)
    · rw [if_neg hc]
      rcases List.mem_cons.mp (ih x) with h1 | h1
      · rw [h1]
        exact List.mem_cons_self x _
      · exact List.mem_cons_of_mem x (List.mem_cons_of_mem y h1)

lemma foldl_maxBlk_ge (x : VTokenRate) (l : List VTokenRate) :
    ∀ y ∈ x :: l, y.blockNumber
      ≤ (l.foldl (fun acc r => if acc.blockNumber < r.blockNumber then r else acc)
          x).blockNumber := by
  induction l generalizing x with
  | nil =>
    intro y hy
    rcases List.mem_cons.mp hy with rfl | h
    · exact le_rfl
    · cases h
  | cons z t ih =>
    intro y hy
    simp only [List.foldl_cons]
    have hstep : x.blockNumber
          ≤ (if x.blockNumber < z.blockNumber then z else x).blockNumber
        ∧ z.blockNumber
          ≤ (if x.blockNumber < z.blockNumber then z else x).blockNumber := by
      by_cases hc : x.blockNumber < z.blockNumber
      · rw [if_pos hc]
        omega
      · rw [if_neg hc]
        omega
    rcases List.mem_cons.mp hy with rfl | hy2
    · exact le_trans hstep.1 (ih _ _ (List.mem_cons_self _ _))
    · rcases List.mem_cons.mp hy2 with rfl | hy3
      · exact le_trans hstep.2 (ih _ _ (List.mem_cons_self _ _))
      · exact ih _ y (List.mem_cons_of_mem _ hy3)

lemma latestByBlock_eq (l : List VTokenRate) (r : VTokenRate)
    (hblk : l.Pairwise (fun a b => a.blockNumber < b.blockNumber))
    (hr : r ∈ l) (hmax : ∀ x ∈ l, x.blockNumber ≤ r.blockNumber) :
    latestByBlock l = some r := by
  cases l with
  | nil => cases hr
  | cons x xs =>
    show some (xs.foldl
      (fun acc v => if acc.blockNumber < v.blockNumber then v else acc) x) = some r
    congr 1
    have hmem := foldl_maxBlk_mem x xs
    have hge := foldl_maxBlk_ge x xs r hr
    have hle := hmax _ hmem
    exact mem_pairwise_lt_eq (fun v => v.blockNumber) hblk hmem hr
      (le_antisymm hle hge)

lemma latestAtOrBefore_sorted_eq {l : List VTokenRate}
    (hts : l.Pairwise (fun a b => a.timestampMs < b.timestampMs)) (c : Int) :
    latestAtOrBefore l c
      = (l.filter (fun r => decide (r.timestampMs ≤ c))).getLast? := by
  rcases hf : l.filter (fun r => decide (r.timestampMs ≤ c)) with _ | ⟨x, xs⟩
  · unfold latestAtOrBefore
    rw [hf]
    rfl
  · unfold latestAtOrBefore
    rw [hf]
    show some (xs.foldl
        (fun acc v => if acc.timestampMs < v.timestampMs then v else acc) x)
      = (x :: xs).getLast?
    obtain ⟨y, hy, hymem⟩ := getLast?_mem_of_ne_nil (x :: xs) (by simp)
    rw [hy]
    congr 1
    have hfl_sorted : (x :: xs).Pairwise
        (fun a b => a.timestampMs < b.timestampMs) := by
      rw [← hf]
      exact List.Pairwise.sublist (List.filter_sublist _) hts
    have hres_mem := foldl_maxTs_mem x xs
    have hy_le := foldl_maxTs_ge x xs y hymem
    have hres_le : (xs.foldl
        (fun acc r => if acc.timestampMs < r.timestampMs then r else acc)
          x).timestampMs ≤ y.timestampMs :=
      pairwise_le_getLast_int (fun r => r.timestampMs)
        (hfl_sorted.imp le_of_lt) hres_mem hy
    exact mem_pairwise_lt_eq (fun r => r.timestampMs) hfl_sorted hres_mem hymem
      (le_antisymm hres_le hy_le)

lemma assocSet_snd_mem {κ β : Type} [DecidableEq κ] {m : List (κ × β)} {k : κ}
    {v x : β} (h : x ∈ (assocSet m k v).map Prod.snd) :
    x ∈ m.map Prod.snd ∨ x = v := by
  induction m with
  | nil =>
    right
    simpa [assocSet] using h
  | cons p t ih =>
    obtain ⟨k0, v0⟩ := p
    unfold assocSet at h
    by_cases hk : k0 = k
    · rw [if_pos hk] at h
      simp only [List.map_cons, List.mem_cons] at h
      rcases h with rfl | h2
      · exact Or.inr rfl
      · exact Or.inl (by simp [h2])
    · rw [if_neg hk] at h
      simp only [List.map_cons, List.mem_cons] at h
      rcases h with rfl | h2
      · exact Or.inl (by simp)
      · rcases ih h2 with h3 | h3
        · exact Or.inl (by simp [h3])
        · exact Or.inr h3

lemma dedupDaily_subset (allRates : List VTokenRate) :
    ∀ r ∈ dedupDaily allRates, r ∈ allRates := by
  suffices hgen : ∀ (l : List VTokenRate) (acc : List (Int × VTokenRate))
      (r : VTokenRate),
      r ∈ (l.foldl (fun m x => assocSet m (dayBucket x.timestampMs) x) acc).map
        Prod.snd →
      r ∈ acc.map Prod.snd ∨ r ∈ l by
    intro r hr
    rcases hgen allRates [] r (by simpa [dedupDaily] using hr) with h | h
    · simp at h
    · exact h
  intro l
  induction l with
  | nil =>
    intro acc r h
    exact Or.inl h
  | cons x t ih =>
    intro acc r h
    rcases ih (assocSet acc (dayBucket x.timestampMs) x) r h with h1 | h1
    · rcases assocSet_snd_mem h1 with h2 | h2
      · exact Or.inl h2
      · exact Or.inr (h2 ▸ List.mem_cons_self x t)
    · exact Or.inr (List.mem_cons_of_mem x h1)

lemma blk_le_of_ts_le {l : List VTokenRate}
    (hts : l.Pairwise (fun a b => a.timestampMs < b.timestampMs))
    (hblk : l.Pairwise (fun a b => a.blockNumber < b.blockNumber))
    {a b : VTokenRate} (ha : a ∈ l) (hb : b ∈ l)
    (h : a.timestampMs ≤ b.timestampMs) : a.blockNumber ≤ b.blockNumber := by
  induction l with
  | nil => cases ha
  | cons x t ih =>
    rcases List.pairwise_cons.mp hts with ⟨hx_ts, ht_ts⟩
    rcases List.pairwise_cons.mp hblk with ⟨hx_blk, ht_blk⟩
    rcases List.mem_cons.mp ha with h1 | ha2
    · rcases List.mem_cons.mp hb with h2 | hb2
      · rw [h1, h2]
      · rw [h1]
        exact le_of_lt (hx_blk b hb2)
    · rcases List.mem_cons.mp hb with h2 | hb2
      · exfalso
        have h3 := hx_ts a ha2
        rw [h2] at h
        omega
      · exact ih ht_ts ht_blk ha2 hb2

lemma computeApyForAsset_eq (powf : ℚ → ℚ → ℚ) (tok : String)
    (rates : List VTokenRate) (price : ℚ) (latest : VTokenRate)
    (hl : latestByBlock rates = some latest) :
    computeApyForAsset powf tok rates price
      = some (mkSnapshotDoc tok latest
          (windowApy powf latest
            (latestAtOrBefore rates (latest.timestampMs - 7 * 24 * 60 * 60 * 1000)))
          (windowApy powf latest
            (latestAtOrBefore rates (latest.timestampMs - 30 * 24 * 60 * 60 * 1000)))
          price CHAIN) := by
  unfold computeApyForAsset
  rw [hl]

lemma filter_le_trunc (allRates : List VTokenRate) (t c : Int) (hct : c ≤ t) :
    (allRates.filter (fun r => decide (r.timestampMs ≤ t))).filter
        (fun r => decide (r.timestampMs ≤ c))
      = allRates.filter (fun r => decide (r.timestampMs ≤ c)) := by
  rw [List.filter_filter]
  refine List.filter_congr (fun r _ => ?_)
  by_cases h : r.timestampMs ≤ c
  · simp [h, le_trans h hct]
  · simp [h]

/-- A concrete stand-in for `Math.pow` satisfying base>1, exp>0 → result>1. -/
def powfId : ℚ → ℚ → ℚ := fun b _ => b

/-- Claim C9 as stated is false on the code: the backfill writes a snapshot
only when the derived staking yield is positive, while the single-point
derivation at that timestamp writes a snapshot unconditionally. With a single
observation, the retained day's single-point snapshot exists (with zero
staking yield) but the backfill produces nothing. -/
theorem backfill_skips_zero_counterexample :
    dedupDaily [(⟨"vDOT", 100, 0, 3 / 2, CHAIN⟩ : VTokenRate)]
        = [⟨"vDOT", 100, 0, 3 / 2, CHAIN⟩]
    ∧ backfillApyHistory powfId "vDOT" [⟨"vDOT", 100, 0, 3 / 2, CHAIN⟩] 1 = []
    ∧ (∃ doc, computeApyForAsset powfId "vDOT"
          (([(⟨"vDOT", 100, 0, 3 / 2, CHAIN⟩ : VTokenRate)]).filter
            (fun r => decide (r.timestampMs ≤ (0 : Int)))) 1 = some doc
        ∧ doc.stakingApyPercent = 0) := by
  refine ⟨?_, ?_, ?_⟩
  · rfl
  · norm_num [backfillApyHistory, dedupDaily, backfillDayDoc, windowApy, assocSet,
      dayBucket, mkSnapshotDoc, List.filterMap]
  · refine ⟨⟨"vDOT", 0, 100, 0, 0, 0, 0, 0, 3 / 2, 1, CHAIN⟩, ?_, rfl⟩
    norm_num [computeApyForAsset, latestByBlock, latestAtOrBefore, windowApy,
      mkSnapshotDoc, round4]

/-- Claim C9 (amended): assuming strictly increasing timestamps and block
numbers and observations tagged with the configured chain, for every day
retained by the deduplication the single-point derivation applied to the
observations truncated at that day's timestamp produces a snapshot document;
the backfill emits exactly that document when the derived staking yield is
positive, and emits nothing when it is zero (where the single-point
derivation would store a zero-yield snapshot). The code's single-point
derivation has no `asOf` parameter, so invoking it "at that timestamp" is
modelled by truncating the observation set. -/
theorem backfill_matches_single (powf : ℚ → ℚ → ℚ)
    (hpow : ∀ b e : ℚ, 1 < b → 0 < e → 1 < powf b e)
    (tokenSymbol : String) (allRates : List VTokenRate) (price : ℚ)
    (hts : allRates.Pairwise (fun a b => a.timestampMs < b.timestampMs))
    (hblk : allRates.Pairwise (fun a b => a.blockNumber < b.blockNumber))
    (hchain : ∀ r ∈ allRates, r.chain = CHAIN) :
    ∀ current ∈ dedupDaily allRates, ∀ a7 a30 s : ℚ,
      a7 = windowApy powf current ((allRates.filter (fun r =>
          decide (r.timestampMs ≤ current.timestampMs - 7 * 24 * 60 * 60 * 1000))).getLast?) →
      a30 = windowApy powf current ((allRates.filter (fun r =>
          decide (r.timestampMs ≤ current.timestampMs - 30 * 24 * 60 * 60 * 1000))).getLast?) →
      s = (if a7 = 0 then a30 else a7) * 100 →
      ∃ doc,
        computeApyForAsset powf tokenSymbol
            (allRates.filter (fun r => decide (r.timestampMs ≤ current.timestampMs)))
            price
          = some doc
        ∧ (0 < s →
            backfillDayDoc powf tokenSymbol allRates price current = some doc)
        ∧ (¬ 0 < s →
            backfillDayDoc powf tokenSymbol allRates price current = none
            ∧ doc.stakingApyPercent = 0) := by
  intro current hcur a7 a30 s ha7 ha30 hs
  have hcur_mem : current ∈ allRates := dedupDaily_subset allRates current hcur
  have hT_ts : (allRates.filter
      (fun r => decide (r.timestampMs ≤ current.timestampMs))).Pairwise
      (fun a b => a.timestampMs < b.timestampMs) :=
    List.Pairwise.sublist (List.filter_sublist _) hts
  have hT_blk : (allRates.filter
      (fun r => decide (r.timestampMs ≤ current.timestampMs))).Pairwise
      (fun a b => a.blockNumber < b.blockNumber) :=
    List.Pairwise.sublist (List.filter_sublist _) hblk
  have hcurT : current ∈ allRates.filter
      (fun r => decide (r.timestampMs ≤ current.timestampMs)) :=
    List.mem_filter.mpr ⟨hcur_mem, by simp⟩
  have hlatest : latestByBlock (allRates.filter
      (fun r => decide (r.timestampMs ≤ current.timestampMs))) = some current := by
    refine latestByBlock_eq _ _ hT_blk hcurT ?_
    intro x hx
    have hx_mem := (List.mem_filter.mp hx).1
    have hx_ts : x.timestampMs ≤ current.timestampMs := by
      have := (List.mem_filter.mp hx).2
      simpa using this
    exact blk_le_of_ts_le hts hblk hx_mem hcur_mem hx_ts
  have href7 : latestAtOrBefore (allRates.filter
        (fun r => decide (r.timestampMs ≤ current.timestampMs)))
        (current.timestampMs - 7 * 24 * 60 * 60 * 1000)
      = (allRates.filter (fun r =>
          decide (r.timestampMs ≤ current.timestampMs - 7 * 24 * 60 * 60 * 1000))).getLast? := by
    rw [latestAtOrBefore_sorted_eq hT_ts,
      filter_le_trunc allRates _ _ (by omega)]
  have href30 : latestAtOrBefore (allRates.filter
        (fun r => decide (r.timestampMs ≤ current.timestampMs)))
        (current.timestampMs - 30 * 24 * 60 * 60 * 1000)
      = (allRates.filter (fun r =>
          decide (r.timestampMs ≤ current.timestampMs - 30 * 24 * 60 * 60 * 1000))).getLast? := by
    rw [latestAtOrBefore_sorted_eq hT_ts,
      filter_le_trunc allRates _ _ (by omega)]
  have hcompute := computeApyForAsset_eq powf tokenSymbol
    (allRates.filter (fun r => decide (r.timestampMs ≤ current.timestampMs)))
    price current hlatest
  rw [href7, href30, ← ha7, ← ha30] at hcompute
  have hnn7 : 0 ≤ a7 := by
    rw [ha7]
    refine windowApy_nonneg powf hpow current _ (fun r hr => ?_)
    have hmem := List.mem_of_mem_getLast? hr
    have := (List.mem_filter.mp hmem).2
    simp only [decide_eq_true_eq] at this
    omega
  have hnn30 : 0 ≤ a30 := by
    rw [ha30]
    refine windowApy_nonneg powf hpow current _ (fun r hr => ?_)
    have hmem := List.mem_of_mem_getLast? hr
    have := (List.mem_filter.mp hmem).2
    simp only [decide_eq_true_eq] at this
    omega
  refine ⟨_, hcompute, ?_, ?_⟩
  · intro hpos
    simp only [backfillDayDoc]
    rw [← ha7, ← ha30, ← hs, if_pos hpos, hchain current hcur_mem]
  · intro hneg
    constructor
    · simp only [backfillDayDoc]
      rw [← ha7, ← ha30, ← hs, if_neg hneg]
    · show round4 ((if a7 = 0 then a30 else a7) * 100) = 0
      rw [← hs]
      have hs0 : s = 0 := by
        have hge : 0 ≤ s := by
          rw [hs]
          rcases eq_or_lt_of_le hnn7 with h7 | h7
          · rw [if_pos h7.symm]
            exact mul_nonneg hnn30 (by norm_num)
          · rw [if_neg (ne_of_gt h7)]
            exact mul_nonneg (le_of_lt h7) (by norm_num)
        exact le_antisymm (not_lt.mp hneg) hge
      rw [hs0]
      simp [round4]

/-- Two exchange-rate observations ten days apart with an increasing rate. -/
def rate0 : VTokenRate := ⟨"vDOT", 100, 0, 3 / 2, CHAIN⟩

def rate1 : VTokenRate := ⟨"vDOT", 200, 864000000, 8 / 5, CHAIN⟩

def rates4 : List VTokenRate := [rate0, rate1]

def doc4 : ApySnapshotDoc := (computeApyForAsset powfId "vDOT" rates4 1).getD default

theorem backfill_matches_single_witness :
    ∃ doc,
      computeApyForAsset powfId "vDOT"
          (rates4.filter (fun r => decide (r.timestampMs ≤ rate1.timestampMs))) 1
        = some doc
      ∧ (0 < (if windowApy powfId rate1 ((rates4.filter (fun r =>
              decide (r.timestampMs ≤ rate1.timestampMs - 7 * 24 * 60 * 60 * 1000))).getLast?)
              = 0
            then windowApy powfId rate1 ((rates4.filter (fun r =>
              decide (r.timestampMs ≤ rate1.timestampMs - 30 * 24 * 60 * 60 * 1000))).getLast?)
            else windowApy powfId rate1 ((rates4.filter (fun r =>
              decide (r.timestampMs ≤ rate1.timestampMs - 7 * 24 * 60 * 60 * 1000))).getLast?))
            * 100 →
          backfillDayDoc powfId "vDOT" rates4 1 rate1 = some doc)
      ∧ (¬ 0 < (if windowApy powfId rate1 ((rates4.filter (fun r =>
              decide (r.timestampMs ≤ rate1.timestampMs - 7 * 24 * 60 * 60 * 1000))).getLast?)
              = 0
            then windowApy powfId rate1 ((rates4.filter (fun r =>
              decide (r.timestampMs ≤ rate1.timestampMs - 30 * 24 * 60 * 60 * 1000))).getLast?)
            else windowApy powfId rate1 ((rates4.filter (fun r =>
              decide (r.timestampMs ≤ rate1.timestampMs - 7 * 24 * 60 * 60 * 1000))).getLast?))
            * 100 →
          backfillDayDoc powfId "vDOT" rates4 1 rate1 = none
          ∧ doc.stakingApyPercent = 0) :=
  backfill_matches_single powfId (fun b e hb _ => hb) "vDOT" rates4 1
    (by decide) (by decide) (by decide) rate1
    (by
      have hded : dedupDaily rates4 = [rate0, rate1] := by
        simp +decide [dedupDaily, rates4, rate0, rate1, assocSet, dayBucket]
      rw [hded]
      exact List.mem_cons_of_mem _ (List.mem_cons_self _ _))
    _ _ _ rfl rfl rfl

theorem stakingYield_precedence_witness :
    latestByBlock rates4 = some rate1
    ∧ computeApyForAsset powfId "vDOT" rates4 1 = some doc4
    ∧ (0 ≤ windowApy powfId rate1
          (latestAtOrBefore rates4 (rate1.timestampMs - 7 * 24 * 60 * 60 * 1000))
      ∧ 0 ≤ windowApy powfId rate1
          (latestAtOrBefore rates4 (rate1.timestampMs - 30 * 24 * 60 * 60 * 1000))
      ∧ doc4.stakingApyPercent
          = round4 ((if 0 < windowApy powfId rate1
                (latestAtOrBefore rates4 (rate1.timestampMs - 7 * 24 * 60 * 60 * 1000))
              then windowApy powfId rate1
                (latestAtOrBefore rates4 (rate1.timestampMs - 7 * 24 * 60 * 60 * 1000))
              else if 0 < windowApy powfId rate1
                  (latestAtOrBefore rates4 (rate1.timestampMs - 30 * 24 * 60 * 60 * 1000))
                then windowApy powfId rate1
                  (latestAtOrBefore rates4 (rate1.timestampMs - 30 * 24 * 60 * 60 * 1000))
                else 0) * 100)) :=
  have hl : latestByBlock rates4 = some rate1 := by
    norm_num [latestByBlock, rates4, rate0, rate1]
  have hd : computeApyForAsset powfId "vDOT" rates4 1 = some doc4 := by
    norm_num [doc4, computeApyForAsset, latestByBlock, latestAtOrBefore, windowApy,
      mkSnapshotDoc, rates4, rate0, rate1, powfId, round4, round_eq, CHAIN]
  ⟨hl, hd,
   (stakingYield_precedence powfId (fun b e hb _ => hb) "vDOT" rates4 1 rate1 doc4
      hl hd).2.2.2⟩

end Apy

namespace Backtest

lemma le_ite_lt (a b : ℚ) : a ≤ if a < b then b else a := by
  split
  · exact le_of_lt (by assumption)
  · exact le_rfl

lemma maxDrawdown_le_dayStep (dto : RunBacktestDto) (i : Nat) (s : LoopState) :
    s.maxDrawdown ≤ (dayStep dto i s).maxDrawdown :=
  le_ite_lt _ _

lemma runBacktest_ok {powf : ℚ → ℚ → ℚ} {sqrtf : ℚ → ℚ} {dto : RunBacktestDto}
    {cache : String → List PoolHistoryRecord} {r : BacktestResult}
    (hr : runBacktest powf sqrtf dto cache = .ok r) :
    r = runValidated powf sqrtf dto cache := by
  unfold runBacktest at hr
  by_cases h1 : (100 + 1 / 100 < totalPercentage dto ∨ totalPercentage dto < 100 - 1 / 100)
      ∧ 1 / 100 < |totalPercentage dto - 100|
  · rw [if_pos h1] at hr
    exact Except.noConfusion hr
  · rw [if_neg h1] at hr
    by_cases h2 : dto.toDay ≤ dto.fromDay
    · rw [if_pos h2] at hr
      exact Except.noConfusion hr
    · rw [if_neg h2] at hr
      exact (Except.ok.inj hr).symm

lemma maxDrawdown_nonneg (dto : RunBacktestDto) (states0 : List AllocState) (i : Nat) :
    0 ≤ (stateAfter dto states0 i).maxDrawdown := by
  induction i with
  | zero => exact le_rfl
  | succ n ih => exact le_trans ih (maxDrawdown_le_dayStep dto n (stateAfter dto states0 n))

/-- Claim C6: throughout the day loop the tracked maximum drawdown is
non-negative and non-decreasing from one day to the next, and the final
summary reports its negation (rounded to 4 decimals). -/
theorem maxDrawdown_monotone (dto : RunBacktestDto)
    (cache : String → List PoolHistoryRecord) (i : Nat) :
    0 ≤ (stateAfter dto (initAllocStates dto cache) i).maxDrawdown
    ∧ (stateAfter dto (initAllocStates dto cache) i).maxDrawdown
        ≤ (stateAfter dto (initAllocStates dto cache) (i + 1)).maxDrawdown
    ∧ ∀ (powf : ℚ → ℚ → ℚ) (sqrtf : ℚ → ℚ) (r : BacktestResult),
        runBacktest powf sqrtf dto cache = .ok r →
        r.summary.maxDrawdownPercent
          = round4 (-(stateAfter dto (initAllocStates dto cache) (numDays dto)).maxDrawdown) := by
  refine ⟨maxDrawdown_nonneg dto _ i,
    maxDrawdown_le_dayStep dto i (stateAfter dto (initAllocStates dto cache) i),
    ?_⟩
  intro powf sqrtf r hr
  have h := runBacktest_ok hr
  subst h
  rfl

/-- Claim C1: on every simulated day the growth section of the day loop leaves
each allocation's value unchanged on day index 0 and multiplies it by
`1 + (yieldPercent/100)/365` on every later day; consequently after day 0 the
portfolio still holds exactly the initial per-allocation baselines. -/
theorem dailyCompounding_spec (dto : RunBacktestDto)
    (cache : String → List PoolHistoryRecord) (i : Nat) (hi : i < numDays dto) :
    (((stateAfter dto (initAllocStates dto cache) i).allocStates.map
        (growthStep i (dto.fromDay + i))).map (fun a => a.valueUsd)
      = (stateAfter dto (initAllocStates dto cache) i).allocStates.map
          (fun a =>
            if i = 0 then a.valueUsd
            else a.valueUsd * (1 + getApyForDay a.apyHistory (dto.fromDay + i) / 100 / 365)))
    ∧ (1 ≤ numDays dto →
        (stateAfter dto (initAllocStates dto cache) 1).allocStates.map (fun a => a.valueUsd)
          = dto.allocations.map (fun a => dto.initialAmountUsd * (a.percentage / 100))) := by
  constructor
  · rw [List.map_map]
    refine List.map_congr_left (fun a _ => ?_)
    cases i with
    | zero => simp [growthStep]
    | succ n => simp [growthStep]
  · intro _
    show (dayStep dto 0 (stateAfter dto (initAllocStates dto cache) 0)).allocStates.map
        (fun a => a.valueUsd) = _
    unfold dayStep
    simp [growthStep, stateAfter, initAllocStates, List.map_map]

/-- Claim C7: whenever the allocation percentages do not sum to 100 within
±0.01, or the start date is not strictly before the end date, or the initial
amount is not positive, the request pipeline rejects with an error, and the
outcome is independent of whatever the external history fetch would return
(no data is consulted, nothing is silently corrected). -/
theorem validation_rejects (powf : ℚ → ℚ → ℚ) (sqrtf : ℚ → ℚ) (dto : RunBacktestDto)
    (cache : String → List PoolHistoryRecord)
    (h : 1 / 100 < |totalPercentage dto - 100| ∨ dto.toDay ≤ dto.fromDay
         ∨ dto.initialAmountUsd ≤ 0) :
    (∃ msg, handleRunBacktest powf sqrtf dto cache = .error msg)
    ∧ ∀ cache', handleRunBacktest powf sqrtf dto cache
        = handleRunBacktest powf sqrtf dto cache' := by
  by_cases hv : validateRunBacktestDto dto = true
  · have hinit : (1 : ℚ) ≤ dto.initialAmountUsd := by
      unfold validateRunBacktestDto at hv
      simp only [Bool.and_eq_true, decide_eq_true_eq] at hv
      exact hv.1.1.1
    by_cases hb : (100 + 1 / 100 < totalPercentage dto
        ∨ totalPercentage dto < 100 - 1 / 100) ∧ 1 / 100 < |totalPercentage dto - 100|
    · have e : ∀ c : String → List PoolHistoryRecord,
          handleRunBacktest powf sqrtf dto c = .error "Allocations must sum to 100%" := by
        intro c
        unfold handleRunBacktest runBacktest
        rw [if_pos hv, if_pos hb]
      exact ⟨⟨_, e cache⟩, fun cache' => (e cache).trans (e cache').symm⟩
    · have hdate : dto.toDay ≤ dto.fromDay := by
        rcases h with h1 | h2 | h3
        · refine absurd ⟨?_, h1⟩ hb
          rcases lt_abs.mp h1 with hgt | hlt
          · exact Or.inl (by linarith)
          · exact Or.inr (by linarith)
        · exact h2
        · linarith
      have e : ∀ c : String → List PoolHistoryRecord,
          handleRunBacktest powf sqrtf dto c = .error "from must be before to" := by
        intro c
        unfold handleRunBacktest runBacktest
        rw [if_pos hv, if_neg hb, if_pos hdate]
      exact ⟨⟨_, e cache⟩, fun cache' => (e cache).trans (e cache').symm⟩
  · have e : ∀ c : String → List PoolHistoryRecord,
        handleRunBacktest powf sqrtf dto c = .error "Validation failed" := by
      intro c
      unfold handleRunBacktest
      rw [if_neg hv]
    exact ⟨⟨_, e cache⟩, fun cache' => (e cache).trans (e cache').symm⟩

/-- Sample variance (dividing by `n − 1`) exactly as computed inside `calcSharpe`. -/
def sampleVariance (rs : List ℚ) : ℚ :=
  (rs.map (fun r => (r - rs.sum / (rs.length : ℚ)) ^ 2)).sum / ((rs.length : ℚ) - 1)

/-- The samples handed to `calcSharpe` by `runBacktest`: the recorded time
series minus day 0, converted from percent to decimals. -/
def dailyReturnsOf (dto : RunBacktestDto)
    (cache : String → List PoolHistoryRecord) : List ℚ :=
  ((stateAfter dto (initAllocStates dto cache) (numDays dto)).timeSeries.drop 1).map
    (fun t => t.dailyReturnPct / 100)

lemma calcSharpe_eq (sqrtf : ℚ → ℚ) (rs : List ℚ) :
    calcSharpe sqrtf rs
      = if rs.length < 2 then 0
        else if sqrtf (sampleVariance rs) = 0 then 0
        else (rs.sum / (rs.length : ℚ) - RISK_FREE_RATE / 365) / sqrtf (sampleVariance rs)
              * sqrtf 365 := rfl

/-- Claim C5: the reported Sharpe ratio is `calcSharpe` over the daily returns
excluding day 0 expressed as decimals; `calcSharpe` is 0 for fewer than 2
samples and for zero sample standard deviation, and otherwise is the
annualized excess-return-over-volatility formula (no division by zero). -/
theorem sharpe_spec (powf : ℚ → ℚ → ℚ) (sqrtf : ℚ → ℚ) (dto : RunBacktestDto)
    (cache : String → List PoolHistoryRecord) (r : BacktestResult)
    (hr : runBacktest powf sqrtf dto cache = .ok r) :
    r.summary.sharpeRatio = round4 (calcSharpe sqrtf (dailyReturnsOf dto cache))
    ∧ (∀ rs : List ℚ, rs.length < 2 → calcSharpe sqrtf rs = 0)
    ∧ (∀ rs : List ℚ, sqrtf (sampleVariance rs) = 0 → calcSharpe sqrtf rs = 0)
    ∧ (∀ rs : List ℚ, 2 ≤ rs.length → sqrtf (sampleVariance rs) ≠ 0 →
        calcSharpe sqrtf rs
          = (rs.sum / (rs.length : ℚ) - RISK_FREE_RATE / 365) / sqrtf (sampleVariance rs)
              * sqrtf 365) := by
  refine ⟨?_, ?_, ?_, ?_⟩
  · have h := runBacktest_ok hr
    subst h
    rfl
  · intro rs h
    rw [calcSharpe_eq, if_pos h]
  · intro rs h
    rw [calcSharpe_eq]
    by_cases h2 : rs.length < 2
    · rw [if_pos h2]
    · rw [if_neg h2, if_pos h]
  · intro rs h2 hne
    rw [calcSharpe_eq, if_neg (by omega), if_neg hne]

/-! Concrete fixtures used by the witnesses below. -/

/-- A concrete stand-in for `Math.pow`. -/
def powf0 : ℚ → ℚ → ℚ := fun b _ => b

/-- A concrete stand-in for `Math.sqrt`. -/
def sqrtf0 : ℚ → ℚ := fun _ => 0

/-- A history cache with no records for any protocol. -/
def cacheEmpty : String → List PoolHistoryRecord := fun _ => []

/-- A minimal valid request: $1000, one day apart, a single 100% allocation. -/
def dtoSingle : RunBacktestDto :=
  ⟨1000, 0, 1, [⟨"bifrost", "vDOT", 100, none⟩], 0, false, 1 / 2⟩

instance : Inhabited BacktestSummary :=
  ⟨⟨0, 0, 0, 0, 0, 0, 0, 0, 0, 0, 0, 0, false⟩⟩

instance : Inhabited BacktestResult := ⟨⟨default, [], []⟩⟩

/-- The result of the minimal valid request. -/
def resSingle : BacktestResult :=
  (runBacktest powf0 sqrtf0 dtoSingle cacheEmpty).toOption.getD default

lemma except_ok_of_toOption {ε α : Type} (e : Except ε α) (v : α)
    (h : e.toOption = some v) : e = .ok v := by
  cases e with
  | error a => exact Option.noConfusion h
  | ok a => exact congrArg Except.ok (Option.some.inj h)

theorem sharpe_spec_witness :
    resSingle.summary.sharpeRatio
        = round4 (calcSharpe sqrtf0 (dailyReturnsOf dtoSingle cacheEmpty))
    ∧ (∀ rs : List ℚ, rs.length < 2 → calcSharpe sqrtf0 rs = 0)
    ∧ (∀ rs : List ℚ, sqrtf0 (sampleVariance rs) = 0 → calcSharpe sqrtf0 rs = 0)
    ∧ (∀ rs : List ℚ, 2 ≤ rs.length → sqrtf0 (sampleVariance rs) ≠ 0 →
        calcSharpe sqrtf0 rs
          = (rs.sum / (rs.length : ℚ) - RISK_FREE_RATE / 365) / sqrtf0 (sampleVariance rs)
              * sqrtf0 365) :=
  sharpe_spec powf0 sqrtf0 dtoSingle cacheEmpty resSingle
    (except_ok_of_toOption _ _ (by
      norm_num [resSingle, runBacktest, runValidated, totalPercentage, dtoSingle, numDays,
        buildDayList, stateAfter, dayStep, growthStep, getApyForDay, initAllocStates,
        rawRecordsFor, buildApyMap, cacheEmpty, countCrossChainHops, round4, round_eq,
        Except.toOption]))

theorem maxDrawdown_monotone_witness :
    0 ≤ (stateAfter dtoSingle (initAllocStates dtoSingle cacheEmpty) 0).maxDrawdown
    ∧ resSingle.summary.maxDrawdownPercent
        = round4
            (-(stateAfter dtoSingle (initAllocStates dtoSingle cacheEmpty)
                (numDays dtoSingle)).maxDrawdown) :=
  ⟨(maxDrawdown_monotone dtoSingle cacheEmpty 0).1,
   (maxDrawdown_monotone dtoSingle cacheEmpty 0).2.2 powf0 sqrtf0 resSingle
     (except_ok_of_toOption _ _ (by
      norm_num [resSingle, runBacktest, runValidated, totalPercentage, dtoSingle, numDays,
        buildDayList, stateAfter, dayStep, growthStep, getApyForDay, initAllocStates,
        rawRecordsFor, buildApyMap, cacheEmpty, countCrossChainHops, round4, round_eq,
        Except.toOption]))⟩

theorem dailyCompounding_spec_witness :
    0 < numDays dtoSingle
    ∧ ((((stateAfter dtoSingle (initAllocStates dtoSingle cacheEmpty) 0).allocStates.map
          (growthStep 0 (dtoSingle.fromDay + 0))).map (fun a => a.valueUsd)
        = (stateAfter dtoSingle (initAllocStates dtoSingle cacheEmpty) 0).allocStates.map
            (fun a =>
              if (0 : Nat) = 0 then a.valueUsd
              else a.valueUsd
                * (1 + getApyForDay a.apyHistory (dtoSingle.fromDay + 0) / 100 / 365)))
      ∧ (1 ≤ numDays dtoSingle →
          (stateAfter dtoSingle (initAllocStates dtoSingle cacheEmpty) 1).allocStates.map
              (fun a => a.valueUsd)
            = dtoSingle.allocations.map
                (fun a => dtoSingle.initialAmountUsd * (a.percentage / 100)))) :=
  ⟨by decide, dailyCompounding_spec dtoSingle cacheEmpty 0 (by decide)⟩

/-- A request with a non-positive initial amount (fails the DTO `@Min(1)`). -/
def dtoBadInit : RunBacktestDto :=
  ⟨0, 0, 1, [⟨"bifrost", "vDOT", 100, none⟩], 0, false, 1 / 2⟩

lemma exists_getLast?_of_ne_nil {α : Type} (l : List α) (h : l ≠ []) :
    ∃ y, l.getLast? = some y ∧ y ∈ l := by
  induction l with
  | nil => exact absurd rfl h
  | cons a t ih =>
    cases t with
    | nil => exact ⟨a, rfl, List.mem_cons_self a []⟩
    | cons b t2 =>
      obtain ⟨y, hy, hymem⟩ := ih (by simp)
      exact ⟨y, by rw [List.getLast?_cons_cons]; exact hy, List.mem_cons_of_mem a hymem⟩

lemma sorted_le_getLast {l : List ℕ} (hs : l.Pairwise (· ≤ ·)) {x y : ℕ} (hx : x ∈ l)
    (hy : l.getLast? = some y) : x ≤ y := by
  induction l with
  | nil => cases hx
  | cons a t ih =>
    rcases List.pairwise_cons.mp hs with ⟨ha, ht⟩
    cases t with
    | nil =>
      have hy' : y = a := by
        have h2 : (some a : Option ℕ) = some y := by simpa using hy
        exact (Option.some.inj h2).symm
      have hx' : x = a := by simpa using hx
      omega
    | cons b t2 =>
      rw [List.getLast?_cons_cons] at hy
      rcases List.mem_cons.mp hx with h1 | h2
      · have hymem : y ∈ b :: t2 := List.mem_of_mem_getLast? hy
        exact h1 ▸ ha y hymem
      · exact ih ht h2 hy

lemma lookup_isSome_of_mem {m : List (Nat × ℚ)} {k : Nat} (h : k ∈ m.map Prod.fst) :
    ∃ v, m.lookup k = some v := by
  induction m with
  | nil => cases h
  | cons p t ih =>
    obtain ⟨k1, v1⟩ := p
    simp only [List.map_cons, List.mem_cons] at h
    by_cases hk : k = k1
    · subst hk
      refine ⟨v1, ?_⟩
      rw [List.lookup_cons]
      simp
    · have h2 : k ∈ t.map Prod.fst := by
        rcases h with h1 | h1
        · exact absurd h1 hk
        · exact h1
      obtain ⟨v, hv⟩ := ih h2
      refine ⟨v, ?_⟩
      rw [List.lookup_cons]
      have hbe : (k == k1) = false := beq_eq_false_iff_ne.mpr hk
      rw [hbe]
      exact hv

lemma mem_of_lookup_some {m : List (Nat × ℚ)} {k : Nat} {v : ℚ}
    (h : m.lookup k = some v) : (k, v) ∈ m := by
  induction m with
  | nil => exact Option.noConfusion h
  | cons p t ih =>
    obtain ⟨k1, v1⟩ := p
    rw [List.lookup_cons] at h
    by_cases hk : k = k1
    · subst hk
      rw [beq_self_eq_true] at h
      have h2 : v1 = v := Option.some.inj h
      subst h2
      exact List.mem_cons_self _ _
    · have hbe : (k == k1) = false := beq_eq_false_iff_ne.mpr hk
      rw [hbe] at h
      exact List.mem_cons_of_mem _ (ih h)

/-- Claim C2: the per-day yield resolution returns the stored value at the exact
date when present; otherwise the value at the latest past date with data;
otherwise the value at the earliest future date with data; and when the
allocation has data for at least one date the result is always one of the
stored values, so the 0 default arises only with no data at all. -/
theorem getApyForDay_lookupPolicy (m : List (Nat × ℚ)) (d : Nat) :
    (∀ v, m.lookup d = some v → getApyForDay m d = v)
    ∧ (m.lookup d = none →
        ∀ kp ∈ m.map Prod.fst, kp ≤ d →
          (∀ k ∈ m.map Prod.fst, k ≤ d → k ≤ kp) →
          getApyForDay m d = (m.lookup kp).getD 0)
    ∧ (m.lookup d = none → (∀ k ∈ m.map Prod.fst, d < k) →
        ∀ kf ∈ m.map Prod.fst, (∀ k ∈ m.map Prod.fst, kf ≤ k) →
          getApyForDay m d = (m.lookup kf).getD 0)
    ∧ (m ≠ [] → ∃ p ∈ m, getApyForDay m d = p.2)
    ∧ (m = [] → getApyForDay m d = 0) := by
  have htrans : ∀ a b c : ℕ, (decide (a ≤ b)) = true → (decide (b ≤ c)) = true →
      (decide (a ≤ c)) = true := by
    intro a b c hab hbc
    simp only [decide_eq_true_eq] at *
    omega
  have htotal : ∀ a b : ℕ, ((decide (a ≤ b)) || (decide (b ≤ a))) = true := by
    intro a b
    simp only [Bool.or_eq_true, decide_eq_true_eq]
    omega
  have hperm : ((m.map Prod.fst).mergeSort (fun a b => decide (a ≤ b))).Perm
      (m.map Prod.fst) := List.mergeSort_perm _ _
  have hsorted : ((m.map Prod.fst).mergeSort (fun a b => decide (a ≤ b))).Pairwise
      (· ≤ ·) := by
    have h := @List.sorted_mergeSort ℕ (fun a b : ℕ => decide (a ≤ b))
      htrans htotal (m.map Prod.fst)
    exact h.imp (by intro a b hab; exact decide_eq_true_eq.mp hab)
  refine ⟨?_, ?_, ?_, ?_, ?_⟩
  · intro v hv
    unfold getApyForDay
    rw [hv]
  · intro hnone kp hkpmem hkpd hub
    unfold getApyForDay
    rw [hnone]
    simp only
    generalize hsk : (m.map Prod.fst).mergeSort (fun a b => decide (a ≤ b)) = sk
    rw [hsk] at hperm hsorted
    have hkpsk : kp ∈ sk := hperm.mem_iff.mpr hkpmem
    cases sk with
    | nil => cases hkpsk
    | cons k0 rest =>
      have hkp_past : kp ∈ (k0 :: rest).filter (fun k => decide (k ≤ d)) :=
        List.mem_filter.mpr ⟨hkpsk, by simpa using hkpd⟩
      have hpast_sorted : ((k0 :: rest).filter (fun k => decide (k ≤ d))).Pairwise
          (· ≤ ·) :=
        List.Pairwise.sublist (List.filter_sublist _) hsorted
      obtain ⟨y, hy, hymem⟩ :=
        exists_getLast?_of_ne_nil _ (List.ne_nil_of_mem hkp_past)
      have hkpy : kp ≤ y := sorted_le_getLast hpast_sorted hkp_past hy
      have hyd : y ≤ d := by
        have h2 := (List.mem_filter.mp hymem).2
        simpa using h2
      have hykeys : y ∈ m.map Prod.fst :=
        hperm.mem_iff.mp (List.mem_filter.mp hymem).1
      have hykp : y = kp := le_antisymm (hub y hykeys hyd) hkpy
      subst hykp
      rw [hy]
  · intro hnone hfut kf hkfmem hlb
    unfold getApyForDay
    rw [hnone]
    simp only
    generalize hsk : (m.map Prod.fst).mergeSort (fun a b => decide (a ≤ b)) = sk
    rw [hsk] at hperm hsorted
    have hkfsk : kf ∈ sk := hperm.mem_iff.mpr hkfmem
    cases sk with
    | nil => cases hkfsk
    | cons k0 rest =>
      have hpast_nil : (k0 :: rest).filter (fun k => decide (k ≤ d)) = [] := by
        rw [List.filter_eq_nil_iff]
        intro a ha
        have h2 : d < a := hfut a (hperm.mem_iff.mp ha)
        simpa using Nat.not_le.mpr h2
      rw [hpast_nil]
      have hk0keys : k0 ∈ m.map Prod.fst :=
        hperm.mem_iff.mp (List.mem_cons_self k0 rest)
      have hk0kf : kf = k0 := by
        rcases List.mem_cons.mp hkfsk with h1 | hkf2
        · exact h1
        · exact le_antisymm (hlb k0 hk0keys)
            ((List.pairwise_cons.mp hsorted).1 kf hkf2)
      rw [hk0kf]
      rfl
  · intro hne
    rcases hval : m.lookup d with _ | v
    · unfold getApyForDay
      rw [hval]
      simp only
      generalize hsk : (m.map Prod.fst).mergeSort (fun a b => decide (a ≤ b)) = sk
      rw [hsk] at hperm hsorted
      cases sk with
      | nil =>
        have h0 : m.map Prod.fst = [] := hperm.symm.eq_nil
        rw [List.map_eq_nil_iff] at h0
        exact absurd h0 hne
      | cons k0 rest =>
        rcases hlast : ((k0 :: rest).filter (fun k => decide (k ≤ d))).getLast? with
          _ | kp
        · have hk0keys : k0 ∈ m.map Prod.fst :=
            hperm.mem_iff.mp (List.mem_cons_self k0 rest)
          obtain ⟨v0, hv0⟩ := lookup_isSome_of_mem hk0keys
          refine ⟨(k0, v0), mem_of_lookup_some hv0, ?_⟩
          show (m.lookup k0).getD 0 = (k0, v0).2
          rw [hv0]
          rfl
        · have hkpmem := List.mem_of_mem_getLast? hlast
          have hkpkeys : kp ∈ m.map Prod.fst :=
            hperm.mem_iff.mp (List.mem_filter.mp hkpmem).1
          obtain ⟨vp, hvp⟩ := lookup_isSome_of_mem hkpkeys
          refine ⟨(kp, vp), mem_of_lookup_some hvp, ?_⟩
          show (m.lookup kp).getD 0 = (kp, vp).2
          rw [hvp]
          rfl
    · exact ⟨(d, v), mem_of_lookup_some hval, by unfold getApyForDay; rw [hval]⟩
  · intro he
    subst he
    simp [getApyForDay, List.lookup]

lemma dayStep_allocStates_rebal (dto : RunBacktestDto) (i : Nat) (s : LoopState)
    (h : 0 < dto.rebalanceIntervalDays ∧ 0 < i ∧ i % dto.rebalanceIntervalDays = 0) :
    (dayStep dto i s).allocStates
      = (s.allocStates.map (growthStep i (dto.fromDay + i))).map
          (fun a =>
            { a with valueUsd :=
                (((s.allocStates.map (growthStep i (dto.fromDay + i))).map
                    (fun a => a.valueUsd)).sum
                  - dto.xcmFeeUsd
                      * countCrossChainHops
                          (s.allocStates.map (growthStep i (dto.fromDay + i))))
                * (a.percentage / 100) }) := by
  simp only [dayStep]
  rw [if_pos h]

lemma dayStep_fees_rebal (dto : RunBacktestDto) (i : Nat) (s : LoopState)
    (h : 0 < dto.rebalanceIntervalDays ∧ 0 < i ∧ i % dto.rebalanceIntervalDays = 0) :
    (dayStep dto i s).xcmFeesPaidUsd
      = s.xcmFeesPaidUsd
        + dto.xcmFeeUsd
            * countCrossChainHops (s.allocStates.map (growthStep i (dto.fromDay + i))) := by
  simp only [dayStep]
  rw [if_pos h]

lemma dayStep_count_rebal (dto : RunBacktestDto) (i : Nat) (s : LoopState)
    (h : 0 < dto.rebalanceIntervalDays ∧ 0 < i ∧ i % dto.rebalanceIntervalDays = 0) :
    (dayStep dto i s).rebalanceCount = s.rebalanceCount + 1 := by
  simp only [dayStep]
  rw [if_pos h]

lemma dayStep_allocStates_norebal (dto : RunBacktestDto) (i : Nat) (s : LoopState)
    (h : ¬(0 < dto.rebalanceIntervalDays ∧ 0 < i ∧ i % dto.rebalanceIntervalDays = 0)) :
    (dayStep dto i s).allocStates
      = s.allocStates.map (growthStep i (dto.fromDay + i)) := by
  simp only [dayStep]
  rw [if_neg h]

lemma dayStep_fees_norebal (dto : RunBacktestDto) (i : Nat) (s : LoopState)
    (h : ¬(0 < dto.rebalanceIntervalDays ∧ 0 < i ∧ i % dto.rebalanceIntervalDays = 0)) :
    (dayStep dto i s).xcmFeesPaidUsd = s.xcmFeesPaidUsd := by
  simp only [dayStep]
  rw [if_neg h]

lemma dayStep_count_norebal (dto : RunBacktestDto) (i : Nat) (s : LoopState)
    (h : ¬(0 < dto.rebalanceIntervalDays ∧ 0 < i ∧ i % dto.rebalanceIntervalDays = 0)) :
    (dayStep dto i s).rebalanceCount = s.rebalanceCount := by
  simp only [dayStep]
  rw [if_neg h]

lemma stateAfter_allocStates_length (dto : RunBacktestDto) (states0 : List AllocState)
    (i : Nat) : ((stateAfter dto states0 i).allocStates).length = states0.length := by
  induction i with
  | zero => rfl
  | succ n ih =>
    have h2 : (dayStep dto n (stateAfter dto states0 n)).allocStates.length
        = (stateAfter dto states0 n).allocStates.length := by
      by_cases h : 0 < dto.rebalanceIntervalDays ∧ 0 < n ∧ n % dto.rebalanceIntervalDays = 0
      · rw [dayStep_allocStates_rebal dto n _ h]
        simp
      · rw [dayStep_allocStates_norebal dto n _ h]
        simp
    exact h2.trans ih

/-- Claim C3: a rebalance happens exactly on day indices that are nonzero exact
multiples of `rebalanceIntervalDays` (when positive); it deducts a single fee of
`xcmFeeUsd × (distinct protocol identifiers − 1)` from the summed post-growth
portfolio value and resets every allocation to the remainder times its original
target percentage / 100, regardless of the drifted weights; on all other days
values pass through the rebalance section unchanged. -/
theorem rebalance_spec (dto : RunBacktestDto) (cache : String → List PoolHistoryRecord)
    (hsum : |totalPercentage dto - 100| ≤ 1 / 100) (i : Nat) :
    let s := stateAfter dto (initAllocStates dto cache) i
    let g := s.allocStates.map (growthStep i (dto.fromDay + i))
    let fee := dto.xcmFeeUsd * (((g.map (fun a => a.protocol)).dedup.length : ℚ) - 1)
    let s' := stateAfter dto (initAllocStates dto cache) (i + 1)
    if 0 < dto.rebalanceIntervalDays ∧ i ≠ 0 ∧ dto.rebalanceIntervalDays ∣ i then
      s'.allocStates.map (fun a => a.valueUsd)
        = g.map (fun a =>
            ((g.map (fun a => a.valueUsd)).sum - fee) * (a.percentage / 100))
      ∧ s'.xcmFeesPaidUsd = s.xcmFeesPaidUsd + fee
      ∧ s'.rebalanceCount = s.rebalanceCount + 1
    else
      s'.allocStates = g
      ∧ s'.xcmFeesPaidUsd = s.xcmFeesPaidUsd
      ∧ s'.rebalanceCount = s.rebalanceCount := by
  intro s g fee s'
  by_cases h : 0 < dto.rebalanceIntervalDays ∧ i ≠ 0 ∧ dto.rebalanceIntervalDays ∣ i
  · rw [if_pos h]
    have hcode : 0 < dto.rebalanceIntervalDays ∧ 0 < i ∧ i % dto.rebalanceIntervalDays = 0 :=
      ⟨h.1, Nat.pos_of_ne_zero h.2.1, Nat.mod_eq_zero_of_dvd h.2.2⟩
    have hne : dto.allocations ≠ [] := by
      intro he
      rw [show totalPercentage dto = 0 by rw [totalPercentage, he]; rfl] at hsum
      norm_num at hsum
    have hlen : g.length = dto.allocations.length := by
      show ((stateAfter dto (initAllocStates dto cache) i).allocStates.map _).length = _
      rw [List.length_map, stateAfter_allocStates_length]
      exact List.length_map _ _
    have hgne : g ≠ [] := by
      intro he
      rw [he] at hlen
      exact hne (List.eq_nil_of_length_eq_zero hlen.symm)
    have hdedup : 1 ≤ (g.map (fun a => a.protocol)).dedup.length := by
      obtain ⟨x, hx⟩ := List.exists_mem_of_ne_nil g hgne
      have hmem : x.protocol ∈ (g.map (fun a => a.protocol)).dedup :=
        List.mem_dedup.mpr (List.mem_map_of_mem _ hx)
      exact List.length_pos.mpr (List.ne_nil_of_mem hmem)
    have hfee : fee = dto.xcmFeeUsd * (countCrossChainHops g : ℚ) := by
      show dto.xcmFeeUsd * _ = _
      rw [countCrossChainHops, Nat.cast_sub hdedup]
      norm_num
    refine ⟨?_, ?_, ?_⟩
    · show (dayStep dto i s).allocStates.map (fun a => a.valueUsd) = _
      rw [dayStep_allocStates_rebal dto i s hcode, List.map_map, hfee]
      exact List.map_congr_left (fun a _ => rfl)
    · show (dayStep dto i s).xcmFeesPaidUsd = _
      rw [dayStep_fees_rebal dto i s hcode, hfee]
    · show (dayStep dto i s).rebalanceCount = _
      exact dayStep_count_rebal dto i s hcode
  · rw [if_neg h]
    have hcode : ¬(0 < dto.rebalanceIntervalDays ∧ 0 < i
        ∧ i % dto.rebalanceIntervalDays = 0) := by
      intro hc
      exact h ⟨hc.1, Nat.pos_iff_ne_zero.mp hc.2.1, Nat.dvd_of_mod_eq_zero hc.2.2⟩
    exact ⟨dayStep_allocStates_norebal dto i s hcode,
           dayStep_fees_norebal dto i s hcode,
           dayStep_count_norebal dto i s hcode⟩

/-- A request with daily rebalancing across two protocols. -/
def dtoRebal : RunBacktestDto :=
  ⟨1000, 0, 2, [⟨"bifrost", "vDOT", 60, none⟩, ⟨"hydration", "HOLLAR", 40, none⟩],
   1, false, 1 / 2⟩

theorem rebalance_spec_witness :
    |totalPercentage dtoRebal - 100| ≤ 1 / 100
    ∧ (let s := stateAfter dtoRebal (initAllocStates dtoRebal cacheEmpty) 1
       let g := s.allocStates.map (growthStep 1 (dtoRebal.fromDay + 1))
       let fee := dtoRebal.xcmFeeUsd
         * (((g.map (fun a => a.protocol)).dedup.length : ℚ) - 1)
       let s' := stateAfter dtoRebal (initAllocStates dtoRebal cacheEmpty) (1 + 1)
       if 0 < dtoRebal.rebalanceIntervalDays ∧ 1 ≠ 0
           ∧ dtoRebal.rebalanceIntervalDays ∣ 1 then
         s'.allocStates.map (fun a => a.valueUsd)
           = g.map (fun a =>
               ((g.map (fun a => a.valueUsd)).sum - fee) * (a.percentage / 100))
         ∧ s'.xcmFeesPaidUsd = s.xcmFeesPaidUsd + fee
         ∧ s'.rebalanceCount = s.rebalanceCount + 1
       else
         s'.allocStates = g
         ∧ s'.xcmFeesPaidUsd = s.xcmFeesPaidUsd
         ∧ s'.rebalanceCount = s.rebalanceCount) :=
  ⟨by norm_num [totalPercentage, dtoRebal, List.foldl],
   rebalance_spec dtoRebal cacheEmpty
     (by norm_num [totalPercentage, dtoRebal, List.foldl]) 1⟩

theorem getApyForDay_lookupPolicy_witness :
    (([(5, 10), (3, 7)] : List (Nat × ℚ)).lookup 4 = none
      ∧ getApyForDay [(5, 10), (3, 7)] 4
          = (([(5, 10), (3, 7)] : List (Nat × ℚ)).lookup 3).getD 0)
    ∧ (([(5, 10), (3, 7)] : List (Nat × ℚ)).lookup 1 = none
      ∧ getApyForDay [(5, 10), (3, 7)] 1
          = (([(5, 10), (3, 7)] : List (Nat × ℚ)).lookup 3).getD 0) :=
  ⟨⟨rfl, (getApyForDay_lookupPolicy [(5, 10), (3, 7)] 4).2.1 rfl 3 (by simp)
      (by simp) (by
        intro k hk hkd
        simp only [List.map_cons, List.map_nil, List.mem_cons] at hk
        rcases hk with rfl | rfl | h
        · omega
        · omega
        · cases h)⟩,
   ⟨rfl, (getApyForDay_lookupPolicy [(5, 10), (3, 7)] 1).2.2.1 rfl (by
        intro k hk
        simp only [List.map_cons, List.map_nil, List.mem_cons] at hk
        rcases hk with rfl | rfl | h
        · omega
        · omega
        · cases h) 3 (by simp) (by
        intro k hk
        simp only [List.map_cons, List.map_nil, List.mem_cons] at hk
        rcases hk with rfl | rfl | h
        · omega
        · omega
        · cases h)⟩⟩

theorem validation_rejects_witness :
    dtoBadInit.initialAmountUsd ≤ 0
    ∧ ((∃ msg, handleRunBacktest powf0 sqrtf0 dtoBadInit cacheEmpty = .error msg)
        ∧ ∀ cache', handleRunBacktest powf0 sqrtf0 dtoBadInit cacheEmpty
            = handleRunBacktest powf0 sqrtf0 dtoBadInit cache') :=
  ⟨by decide,
   validation_rejects powf0 sqrtf0 dtoBadInit cacheEmpty (Or.inr (Or.inr (by decide)))⟩

lemma getApyForDay_nil (d : Nat) : getApyForDay [] d = 0 := by
  simp [getApyForDay, List.lookup]

/-- The cumulative effect of the growth sections of days `0, …, i-1` on a
single allocation state (no rebalancing interleaved). -/
def evolveAlloc (fromDay : Nat) : Nat → AllocState → AllocState
  | 0, a => a
  | i + 1, a => growthStep i (fromDay + i) (evolveAlloc fromDay i a)

lemma stateAfter_allocStates_of_norebal (dto : RunBacktestDto)
    (states0 : List AllocState) (hreb : dto.rebalanceIntervalDays = 0) (i : Nat) :
    (stateAfter dto states0 i).allocStates = states0.map (evolveAlloc dto.fromDay i) := by
  induction i with
  | zero =>
    show states0 = states0.map (evolveAlloc dto.fromDay 0)
    simp [evolveAlloc]
  | succ n ih =>
    show (dayStep dto n (stateAfter dto states0 n)).allocStates = _
    rw [dayStep_allocStates_norebal dto n _ (by simp [hreb]), ih, List.map_map]
    rfl

lemma evolveAlloc_apyHistory (f i : Nat) (a : AllocState) :
    (evolveAlloc f i a).apyHistory = a.apyHistory := by
  induction i with
  | zero => rfl
  | succ n ih =>
    show (growthStep n (f + n) (evolveAlloc f n a)).apyHistory = _
    rw [show ∀ b : AllocState, (growthStep n (f + n) b).apyHistory = b.apyHistory
      from fun b => rfl]
    exact ih

lemma evolveAlloc_percentage (f i : Nat) (a : AllocState) :
    (evolveAlloc f i a).percentage = a.percentage := by
  induction i with
  | zero => rfl
  | succ n ih =>
    show (growthStep n (f + n) (evolveAlloc f n a)).percentage = _
    rw [show ∀ b : AllocState, (growthStep n (f + n) b).percentage = b.percentage
      from fun b => rfl]
    exact ih

lemma evolveAlloc_valueUsd_zero (f i : Nat) (a : AllocState)
    (hz : ∀ j < i, getApyForDay a.apyHistory (f + j) = 0) :
    (evolveAlloc f i a).valueUsd = a.valueUsd := by
  induction i with
  | zero => rfl
  | succ n ih =>
    show (growthStep n (f + n) (evolveAlloc f n a)).valueUsd = _
    have hv : (evolveAlloc f n a).valueUsd = a.valueUsd :=
      ih (fun j hj => hz j (by omega))
    have ha : getApyForDay (evolveAlloc f n a).apyHistory (f + n) = 0 := by
      rw [evolveAlloc_apyHistory]
      exact hz n (by omega)
    unfold growthStep
    simp only [ha, hv]
    split
    · norm_num
    · rfl

lemma totalPercentage_eq_sum (dto : RunBacktestDto) :
    totalPercentage dto = (dto.allocations.map (fun a => a.percentage)).sum := by
  suffices h : ∀ (l : List BacktestAllocation) (c : ℚ),
      l.foldl (fun s a => s + a.percentage) c = c + (l.map (fun a => a.percentage)).sum by
    simpa using h dto.allocations 0
  intro l
  induction l with
  | nil => intro c; simp
  | cons x t ih =>
    intro c
    simp only [List.foldl_cons, List.map_cons, List.sum_cons, ih]
    ring

lemma round4_zero : round4 0 = 0 := by
  norm_num [round4]

/-- Claim C8 as stated is false on the code: with daily rebalancing across two
protocols, every resolved yield is 0 on every day of this three-day run, yet
the cross-chain rebalance fee of $0.50 is deducted twice, so the reported
`finalAmountUsd` is 999, not the initial 1000. -/
theorem zeroYield_fee_counterexample :
    (∀ a ∈ initAllocStates dtoRebal cacheEmpty, ∀ i < numDays dtoRebal,
        getApyForDay a.apyHistory (dtoRebal.fromDay + i) = 0)
    ∧ dtoRebal.initialAmountUsd = 1000
    ∧ (runBacktest powf0 sqrtf0 dtoRebal cacheEmpty).toOption.map
        (fun r => r.summary.finalAmountUsd) = some 999
    ∧ (999 : ℚ) ≠ 1000 := by
  have hbs : ("bifrost" : String) ≠ "hydration" := by decide
  refine ⟨?_, rfl, ?_, by norm_num⟩
  · intro a ha i _
    have h0 : a.apyHistory = [] := by
      simp only [initAllocStates, dtoRebal, rawRecordsFor, cacheEmpty, buildApyMap,
        List.filter_nil, List.foldl_nil, List.map_cons, List.map_nil,
        List.mem_cons, List.not_mem_nil, or_false] at ha
      rcases ha with rfl | rfl
      · rfl
      · rfl
    rw [h0, getApyForDay_nil]
  · norm_num [runBacktest, runValidated, totalPercentage, dtoRebal, numDays,
      buildDayList, stateAfter, dayStep, growthStep, getApyForDay, initAllocStates,
      rawRecordsFor, buildApyMap, cacheEmpty, countCrossChainHops, Except.toOption,
      List.lookup, List.dedup, List.pwFilter, round4, round_eq, hbs]

/-- `mkBreakdownEntry` on an allocation whose history map is empty: the final
value equals the allocated value, the return is 0, and the no-historical-data
annotation is set. -/
lemma mkBreakdownEntry_no_data (initial : ℚ) (a : AllocState) (f n : Nat)
    (hhist : a.apyHistory = [])
    (hval0 : a.valueUsd = initial * (a.percentage / 100)) :
    (mkBreakdownEntry initial (evolveAlloc f n a)).finalUsd
        = (mkBreakdownEntry initial (evolveAlloc f n a)).allocatedUsd
    ∧ (mkBreakdownEntry initial (evolveAlloc f n a)).returnUsd = 0
    ∧ (mkBreakdownEntry initial (evolveAlloc f n a)).hasHistoricalData = false := by
  have hv : (evolveAlloc f n a).valueUsd = a.valueUsd :=
    evolveAlloc_valueUsd_zero _ _ _ (fun j _ => by rw [hhist, getApyForDay_nil])
  have hp := evolveAlloc_percentage f n a
  have hh := evolveAlloc_apyHistory f n a
  refine ⟨?_, ?_, ?_⟩
  · show round4 (evolveAlloc f n a).valueUsd
      = round4 (initial * ((evolveAlloc f n a).percentage / 100))
    rw [hv, hp, hval0]
  · show round4 ((evolveAlloc f n a).valueUsd
      - initial * ((evolveAlloc f n a).percentage / 100)) = 0
    rw [hv, hp, hval0, sub_self]
    exact round4_zero
  · show decide (0 < (evolveAlloc f n a).apyHistory.length) = false
    rw [hh, hhist]
    rfl

/-- Claim C8 (amended): zero-yield compounding is the identity once the effects
the counterexample exposes are excluded — with rebalancing disabled (rebalance
fees are charged even at zero yield), IL disabled, percentages summing to
exactly 100 (the ±0.01 tolerance otherwise shifts the total), and an initial
amount that survives the summary's 4-decimal rounding, `finalAmountUsd` equals
`initialAmountUsd`; an allocation with no matching upstream records ends with
`finalUsd = allocatedUsd`, zero return, and `hasHistoricalData = false`; and
each allocation's breakdown entry depends only on its own records, so the rest
of the run is unaffected. -/
theorem zeroYield_identity_amended (powf : ℚ → ℚ → ℚ) (sqrtf : ℚ → ℚ)
    (dto : RunBacktestDto) (cache : String → List PoolHistoryRecord)
    (r : BacktestResult)
    (hreb : dto.rebalanceIntervalDays = 0) (hil : dto.includeIL = false)
    (hsum : totalPercentage dto = 100)
    (hr4 : round4 dto.initialAmountUsd = dto.initialAmountUsd)
    (hr : runBacktest powf sqrtf dto cache = .ok r) :
    ((∀ a ∈ initAllocStates dto cache, ∀ i < numDays dto,
        getApyForDay a.apyHistory (dto.fromDay + i) = 0) →
      r.summary.finalAmountUsd = dto.initialAmountUsd)
    ∧ (∀ k : Nat, ∀ alloc, dto.allocations[k]? = some alloc →
        rawRecordsFor cache alloc = [] →
        ∃ e, r.breakdown[k]? = some e
          ∧ e.finalUsd = e.allocatedUsd ∧ e.returnUsd = 0
          ∧ e.hasHistoricalData = false)
    ∧ (∀ (cache' : String → List PoolHistoryRecord) (r' : BacktestResult),
        runBacktest powf sqrtf dto cache' = .ok r' →
        ∀ (k : Nat) alloc, dto.allocations[k]? = some alloc →
          rawRecordsFor cache alloc = rawRecordsFor cache' alloc →
          r.breakdown[k]? = r'.breakdown[k]?) := by
  have hrr := runBacktest_ok hr
  subst hrr
  have hil' : ∀ (c : String → List PoolHistoryRecord),
      (if dto.includeIL then
          (stateAfter dto (initAllocStates dto c) (numDays dto)).allocStates.map
            (ilAdjust sqrtf)
        else (stateAfter dto (initAllocStates dto c) (numDays dto)).allocStates)
      = (initAllocStates dto c).map (evolveAlloc dto.fromDay (numDays dto)) := by
    intro c
    rw [hil]
    simp only [Bool.false_eq_true, if_false]
    exact stateAfter_allocStates_of_norebal dto _ hreb (numDays dto)
  have key : ∀ (c : String → List PoolHistoryRecord) (k : Nat) (alloc : BacktestAllocation),
      dto.allocations[k]? = some alloc →
      (runValidated powf sqrtf dto c).breakdown[k]?
        = some (mkBreakdownEntry dto.initialAmountUsd
            (evolveAlloc dto.fromDay (numDays dto)
              { protocol := alloc.protocol
                assetSymbol := alloc.assetSymbol
                poolType := alloc.poolType.getD "unknown"
                percentage := alloc.percentage
                valueUsd := dto.initialAmountUsd * (alloc.percentage / 100)
                apyHistory := buildApyMap (rawRecordsFor c alloc)
                apySamples := []
                ilLossUsd := 0 })) := by
    intro c k alloc hk
    show ((if dto.includeIL then
        (stateAfter dto (initAllocStates dto c) (numDays dto)).allocStates.map
          (ilAdjust sqrtf)
      else (stateAfter dto (initAllocStates dto c) (numDays dto)).allocStates).map
        (mkBreakdownEntry dto.initialAmountUsd))[k]? = _
    rw [hil' c, initAllocStates, List.map_map, List.map_map, List.getElem?_map, hk]
    rfl
  refine ⟨?_, ?_, ?_⟩
  · intro hz
    have hfin : (((initAllocStates dto cache).map
          (evolveAlloc dto.fromDay (numDays dto))).map (fun a => a.valueUsd)).sum
        = dto.initialAmountUsd := by
      rw [List.map_map]
      have he : ((initAllocStates dto cache).map
            ((fun a => a.valueUsd) ∘ evolveAlloc dto.fromDay (numDays dto)))
          = (initAllocStates dto cache).map (fun a => a.valueUsd) :=
        List.map_congr_left (fun a ha =>
          evolveAlloc_valueUsd_zero _ _ _ (fun j hj => hz a ha j hj))
      rw [he]
      rw [show (initAllocStates dto cache).map (fun a => a.valueUsd)
          = dto.allocations.map
              (fun alloc => dto.initialAmountUsd * (alloc.percentage / 100)) from by
        rw [initAllocStates, List.map_map]
        exact List.map_congr_left (fun a _ => rfl)]
      have hsum2 : ((dto.allocations.map
            (fun alloc => dto.initialAmountUsd * (alloc.percentage / 100)))).sum
          = dto.initialAmountUsd * totalPercentage dto / 100 := by
        rw [totalPercentage_eq_sum]
        induction dto.allocations with
        | nil => simp
        | cons x t ih =>
          simp only [List.map_cons, List.sum_cons, ih]
          ring
      rw [hsum2, hsum]
      ring
    show round4 ((((if dto.includeIL then
        (stateAfter dto (initAllocStates dto cache) (numDays dto)).allocStates.map
          (ilAdjust sqrtf)
      else (stateAfter dto (initAllocStates dto cache) (numDays dto)).allocStates)).map
        (fun a => a.valueUsd)).sum) = dto.initialAmountUsd
    rw [hil' cache, hfin, hr4]
  · intro k alloc hk hraw
    refine ⟨_, key cache k alloc hk, ?_⟩
    exact mkBreakdownEntry_no_data dto.initialAmountUsd _ dto.fromDay (numDays dto)
      (by show buildApyMap (rawRecordsFor cache alloc) = []; rw [hraw]; rfl) rfl
  · intro cache' r' hr' k alloc hk hroweq
    have hrr' := runBacktest_ok hr'
    subst hrr'
    rw [key cache k alloc hk, key cache' k alloc hk, hroweq]

lemma downsample_char (series : List TimeSeriesPoint) (maxPoints step count : Nat)
    (h : ¬ series.length ≤ maxPoints)
    (hstep : step = (series.length + maxPoints - 1) / maxPoints)
    (hcount : count = (series.length + step - 1) / step) :
    downsampleTimeSeries series maxPoints
      = if (count - 1) * step = series.length - 1 then
          (List.range count).map (fun k => series.getD (k * step) default)
        else (List.range count).map (fun k => series.getD (k * step) default)
          ++ [series.getD (series.length - 1) default] := by
  subst hstep hcount
  unfold downsampleTimeSeries
  rw [if_neg h]

lemma downsample_count_le (n maxPoints step count : Nat) (hm : 0 < maxPoints)
    (h : maxPoints < n) (hstep : step = (n + maxPoints - 1) / maxPoints)
    (hcount : count = (n + step - 1) / step) :
    0 < step ∧ count ≤ maxPoints ∧ 0 < count ∧ count * step ≤ n + step - 1 := by
  have hstep_pos : 0 < step := by
    subst hstep
    exact Nat.div_pos (by omega) hm
  have h3 : n + maxPoints - 1 < maxPoints * (step + 1) := by
    subst hstep
    exact Nat.lt_mul_div_succ _ hm
  have h4 : maxPoints * (step + 1) = step * maxPoints + maxPoints := by ring
  have hn_le : n ≤ step * maxPoints := by omega
  refine ⟨hstep_pos, ?_, ?_, ?_⟩
  · subst hcount
    rw [Nat.div_le_iff_le_mul_add_pred hstep_pos]
    omega
  · subst hcount
    exact Nat.div_pos (by omega) hstep_pos
  · subst hcount
    exact Nat.div_mul_le_self _ _

/-- A 1000-point time series. -/
def series1000 : List TimeSeriesPoint :=
  (List.range 1000).map (fun i => ⟨i, 0, 0⟩)

/-- Claim C10 as stated is false on the code: for a series of 1000 points the
stride is 2, the strided sample has 500 points ending at index 998, and the
forcibly-appended final point makes 501 — exceeding the 500-point cap. -/
theorem downsample_cap_counterexample :
    series1000.length = 1000
    ∧ (downsampleTimeSeries series1000 500).length = 501
    ∧ ¬((downsampleTimeSeries series1000 500).length ≤ 500) := by
  have hlen : series1000.length = 1000 := by
    simp [series1000]
  have h2 : (downsampleTimeSeries series1000 500).length = 501 := by
    rw [downsample_char series1000 500 2 500 (by omega) (by rw [hlen]) (by rw [hlen])]
    rw [if_neg (by rw [hlen]; omega)]
    rw [List.length_append, List.length_map, List.length_range]
    rfl
  exact ⟨hlen, h2, by omega⟩

/-- Claim C10 (amended): the downsampled series is unchanged when it has at
most 500 points; otherwise it is the uniform-stride sample starting at the
first point with the final point forcibly appended when the stride skips it —
which caps the result at 501 points (500 strided points plus possibly the
appended final point), not 500 as claimed; the final point is always present. -/
theorem downsample_spec (series : List TimeSeriesPoint) :
    (series.length ≤ 500 → downsampleTimeSeries series 500 = series)
    ∧ (downsampleTimeSeries series 500).length ≤ 501
    ∧ (series ≠ [] → (downsampleTimeSeries series 500).getLast? = series.getLast?)
    ∧ (500 < series.length →
        ∀ k, k < (series.length + (series.length + 500 - 1) / 500 - 1)
              / ((series.length + 500 - 1) / 500) →
          (downsampleTimeSeries series 500)[k]?
            = series[k * ((series.length + 500 - 1) / 500)]?) := by
  by_cases h : series.length ≤ 500
  · have hid : downsampleTimeSeries series 500 = series := by
      unfold downsampleTimeSeries
      rw [if_pos h]
    refine ⟨fun _ => hid, ?_, fun _ => by rw [hid], fun hgt => absurd hgt (by omega)⟩
    rw [hid]
    omega
  · set step := (series.length + 500 - 1) / 500 with hstep
    set count := (series.length + step - 1) / step with hcount
    obtain ⟨hstep_pos, hcle, hcpos, hcmul⟩ :=
      downsample_count_le series.length 500 step count (by norm_num) (by omega)
        hstep hcount
    have hchar := downsample_char series 500 step count h hstep hcount
    have hkstep : ∀ k, k < count → k * step < series.length := by
      intro k hk
      have h1 : (k + 1) * step ≤ count * step := Nat.mul_le_mul_right step hk
      have h2 : (k + 1) * step = k * step + step := by ring
      omega
    have hgetD : ∀ i, i < series.length →
        some (series.getD i default) = series[i]? := by
      intro i hi
      rw [List.getD_eq_getElem?_getD, List.getElem?_eq_getElem hi]
      rfl
    have hlast_strided : ((List.range count).map
        (fun k => series.getD (k * step) default)).getLast?
        = some (series.getD ((count - 1) * step) default) := by
      rw [List.getLast?_eq_getElem?, List.length_map, List.length_range,
        List.getElem?_map, List.getElem?_range (by omega)]
      rfl
    have hser_last : series.getLast? = some (series.getD (series.length - 1) default) := by
      rw [List.getLast?_eq_getElem?, ← hgetD _ (by omega)]
    refine ⟨fun hle => absurd hle h, ?_, ?_, ?_⟩
    · rw [hchar]
      split
      · rw [List.length_map, List.length_range]
        omega
      · rw [List.length_append, List.length_map, List.length_range]
        simp only [List.length_cons, List.length_nil]
        omega
    · intro _
      rw [hchar]
      split
      · rename_i hif
        rw [hlast_strided, hif, hser_last]
      · rw [List.getLast?_concat, hser_last]
    · intro _ k hk
      rw [hchar]
      have hmap : ((List.range count).map
          (fun k => series.getD (k * step) default))[k]? = series[k * step]? := by
        rw [List.getElem?_map, List.getElem?_range hk]
        exact hgetD _ (hkstep k hk)
      split
      · exact hmap
      · rw [List.getElem?_append_left
          (by rw [List.length_map, List.length_range]; exact hk), hmap]

theorem downsample_spec_witness :
    downsampleTimeSeries [⟨0, 0, 0⟩] 500 = [⟨0, 0, 0⟩]
    ∧ (downsampleTimeSeries [⟨0, 0, 0⟩] 500).getLast?
        = ([⟨0, 0, 0⟩] : List TimeSeriesPoint).getLast? :=
  ⟨(downsample_spec [⟨0, 0, 0⟩]).1 (by norm_num),
   (downsample_spec [⟨0, 0, 0⟩]).2.2.1 (by simp)⟩

theorem zeroYield_identity_amended_witness :
    ((∀ a ∈ initAllocStates dtoSingle cacheEmpty, ∀ i < numDays dtoSingle,
        getApyForDay a.apyHistory (dtoSingle.fromDay + i) = 0) →
      resSingle.summary.finalAmountUsd = dtoSingle.initialAmountUsd)
    ∧ (∀ k : Nat, ∀ alloc, dtoSingle.allocations[k]? = some alloc →
        rawRecordsFor cacheEmpty alloc = [] →
        ∃ e, resSingle.breakdown[k]? = some e
          ∧ e.finalUsd = e.allocatedUsd ∧ e.returnUsd = 0
          ∧ e.hasHistoricalData = false)
    ∧ (∀ (cache' : String → List PoolHistoryRecord) (r' : BacktestResult),
        runBacktest powf0 sqrtf0 dtoSingle cache' = .ok r' →
        ∀ (k : Nat) alloc, dtoSingle.allocations[k]? = some alloc →
          rawRecordsFor cacheEmpty alloc = rawRecordsFor cache' alloc →
          resSingle.breakdown[k]? = r'.breakdown[k]?) :=
  zeroYield_identity_amended powf0 sqrtf0 dtoSingle cacheEmpty resSingle rfl rfl
    (by norm_num [totalPercentage, dtoSingle, List.foldl])
    (by norm_num [round4, round_eq, dtoSingle])
    (except_ok_of_toOption _ _ (by
      norm_num [resSingle, runBacktest, runValidated, totalPercentage, dtoSingle, numDays,
        buildDayList, stateAfter, dayStep, growthStep, getApyForDay, initAllocStates,
        rawRecordsFor, buildApyMap, cacheEmpty, countCrossChainHops, round4, round_eq,
        Except.toOption]))

end Backtest

end ParaYield
